import Mathlib

/-!
# Verification of the forwarding handler `api.Handler` (`src/api/index.go`)

The development embeds the single request handler of the repository and the
parts of the Go standard library whose behaviour it relies on
(`regexp.ReplaceAllString` for the one pattern in the source,
`strings.HasPrefix`, `strings.ToLower`, `strings.Title`, `http.Header`,
`http.Error`, `http.Redirect`, `ResponseWriter.WriteHeader`).

Conventions of the embedding:

* a Go `string` is a `List Char` (a sequence of Unicode code points, that is,
  a string that is valid UTF-8); byte streams (bodies) are `List UInt8`;
* a Go `map[string][]string` that the handler ranges over is the list of its
  entries in the order in which the `range` loop visits them; every statement
  is proved for every such order;
* the network (`http.NewRequest` failing, the round trip behind `client.Do`)
  and the Unicode case tables of package `unicode` are parameters of the
  handler (`Env`);
* a panic is an explicit way for a piece of code to end (`Exit.panicked`); the
  deferred `recover` of the handler turns it into a response;
* `log.Printf` only writes to the server log and is not part of the model.

Definitions come first, then lemmas, then one theorem per claim `C1` to `C10`.
-/

namespace Api

/-! ## Strings -/

/-- A Go string. -/
abbrev Str := List Char

/-- Go `strings.HasPrefix(s, prefix)`. -/
def HasPrefix (s pre : Str) : Bool := pre.isPrefixOf s

/-! ## The path pattern `^/*(https?:)/*` and its replacement `$1//`

The pattern is anchored at the start of the text, so it matches at most once
and only at offset 0.  `/*` is greedy and the piece after it starts with `h`,
`s?` is greedy and the piece after it is `:`; backtracking into a shorter run
of `/` or out of the optional `s` can therefore never produce a match that the
greedy choice misses, and the leftmost-first match is the one computed below.
-/

/-- The piece `/*`: the text left after the longest run of `/`. -/
def skipSlashes : Str → Str
  | [] => []
  | c :: cs => if c = '/' then skipSlashes cs else c :: cs

/-- The capture group `(https?:)` matched at the start of the text: the captured
text and the text that follows it. -/
def matchScheme (s : Str) : Option (Str × Str) :=
  if "https:".toList.isPrefixOf s then some ("https:".toList, s.drop 6)
  else if "http:".toList.isPrefixOf s then some ("http:".toList, s.drop 5)
  else none

/-- Match of `^/*(https?:)/*` against the whole text: capture group 1 and the
text after the match. -/
def matchTarget (path : Str) : Option (Str × Str) :=
  match matchScheme (skipSlashes path) with
  | some (g1, rest) => some (g1, skipSlashes rest)
  | none => none

/-- Source line 47-48: `re.ReplaceAllString(r.URL.Path, "$1//")` for
`re = ^/*(https?:)/*`. The match, if any, is replaced by group 1 followed by
`//`; a text without a match is returned unchanged. -/
def replacePath (path : Str) : Str :=
  match matchTarget path with
  | some (g1, rest) => g1 ++ "//".toList ++ rest
  | none => path

/-- Source lines 47-51: the target URL derived from path and raw query. -/
def targetURL (path rawQuery : Str) : Str :=
  let t := replacePath path
  if rawQuery ≠ [] then t ++ "?".toList ++ rawQuery else t


/-! ## Bytes -/

/-- UTF-8 encoding of one code point (Go strings are UTF-8 byte sequences). -/
def utf8EncodeChar (c : Char) : List UInt8 :=
  let n := c.toNat
  if n < 0x80 then [UInt8.ofNat n]
  else if n < 0x800 then [UInt8.ofNat (0xC0 + n / 64), UInt8.ofNat (0x80 + n % 64)]
  else if n < 0x10000 then
    [UInt8.ofNat (0xE0 + n / 4096), UInt8.ofNat (0x80 + n / 64 % 64), UInt8.ofNat (0x80 + n % 64)]
  else
    [UInt8.ofNat (0xF0 + n / 262144), UInt8.ofNat (0x80 + n / 4096 % 64),
     UInt8.ofNat (0x80 + n / 64 % 64), UInt8.ofNat (0x80 + n % 64)]

/-- The bytes of a Go string, as written by `fmt.Fprintln`. -/
def bytes : Str → List UInt8
  | [] => []
  | c :: cs => utf8EncodeChar c ++ bytes cs

/-! ## Package `unicode` and `strings.ToLower`, `strings.Title` -/

/-- The data of package `unicode` that `strings.ToLower` and `strings.Title`
consult for runes above `unicode.MaxASCII`: the case mappings
(`unicode.CaseRanges`) and the letter, digit and white-space classes. The
tables are not part of this repository; the handler is parameterised by them.
For ASCII runes the library functions never consult them (see below). -/
structure UnicodeTables where
  toLower : Char → Char
  toTitle : Char → Char
  isLetter : Char → Bool
  isDigit : Char → Bool
  isSpace : Char → Bool

/-- Test `r <= unicode.MaxASCII`. -/
def isASCII (r : Char) : Bool := decide (r.toNat ≤ 0x7F)

/-- ASCII upper-case letter test, `'A' <= r && r <= 'Z'`. -/
def isUpperAZ (r : Char) : Bool := decide (65 ≤ r.toNat ∧ r.toNat ≤ 90)

/-- ASCII lower-case letter test, `'a' <= r && r <= 'z'`. -/
def isLowerAZ (r : Char) : Bool := decide (97 ≤ r.toNat ∧ r.toNat ≤ 122)

/-- ASCII lower-casing, `r += 'a' - 'A'` on `A..Z`, other runes unchanged. -/
def asciiLower (r : Char) : Char :=
  if isUpperAZ r then Char.ofNat (r.toNat + 32) else r

/-- ASCII upper-casing, `r -= 'a' - 'A'` on `a..z`, other runes unchanged. -/
def asciiUpper (r : Char) : Char :=
  if isLowerAZ r then Char.ofNat (r.toNat - 32) else r

/-- Go `unicode.ToLower`: ASCII fast path, otherwise the case tables. -/
def unicode_ToLower (T : UnicodeTables) (r : Char) : Char :=
  if isASCII r then asciiLower r else T.toLower r

/-- Go `unicode.ToTitle`: for ASCII title case is upper case, otherwise the
case tables. -/
def unicode_ToTitle (T : UnicodeTables) (r : Char) : Char :=
  if isASCII r then asciiUpper r else T.toTitle r

/-- Go `strings.ToLower`: every rune mapped by `unicode.ToLower` (the ASCII-only
fast path of the library computes the same string). -/
def strings_ToLower (T : UnicodeTables) (s : Str) : Str :=
  s.map (unicode_ToLower T)

/-- Go `strings.isSeparator`: ASCII alphanumerics and underscore are not
separators, other ASCII runes are; above ASCII, letters and digits are not and
spaces are. -/
def isSeparator (T : UnicodeTables) (r : Char) : Bool :=
  if isASCII r then
    !(decide (48 ≤ r.toNat ∧ r.toNat ≤ 57) || isLowerAZ r || isUpperAZ r || r == '_')
  else if T.isLetter r || T.isDigit r then false
  else T.isSpace r

/-- The closure of `strings.Title` applied along the string; `prev` is the rune
seen before (initially a space). -/
def titleFrom (T : UnicodeTables) : Char → Str → Str
  | _, [] => []
  | prev, r :: rs =>
    (if isSeparator T prev then unicode_ToTitle T r else r) :: titleFrom T r rs

/-- Go `strings.Title`: the first rune of every word mapped to title case. -/
def strings_Title (T : UnicodeTables) (s : Str) : Str := titleFrom T ' ' s

/-! ## `http.Header` -/

/-- Go `textproto.validHeaderFieldByte`: the token characters of RFC 7230,
that is ASCII letters, digits and the fifteen characters
`! # $ % & ' * + - . ^ _ | ~` and the backquote (listed by code point). -/
def validHeaderFieldByte (c : Char) : Bool :=
  isASCII c &&
    (decide (48 ≤ c.toNat ∧ c.toNat ≤ 57) || isLowerAZ c || isUpperAZ c ||
      [33, 35, 36, 37, 38, 39, 42, 43, 45, 46, 94, 95, 96, 124, 126].contains c.toNat)

/-- The canonicalising loop of `textproto.canonicalMIMEHeaderKey`: upper case
for the first letter and any letter after a hyphen, lower case elsewhere. -/
def canonicalLoop : Bool → Str → Str
  | _, [] => []
  | upper, c :: cs =>
    let c1 := if upper && isLowerAZ c then asciiUpper c
              else if !upper && isUpperAZ c then asciiLower c else c
    c1 :: canonicalLoop (c1 == '-') cs

/-- Go `textproto.CanonicalMIMEHeaderKey` (= `http.CanonicalHeaderKey`): a key
with a byte that is not a token character (a space, a non-ASCII byte) is
returned unchanged. -/
def CanonicalMIMEHeaderKey (s : Str) : Str :=
  if s.all validHeaderFieldByte then canonicalLoop true s else s

/-- Go `httpguts.ValidHeaderFieldName`: a non-empty string of token characters
(the same table as `validHeaderFieldByte`). -/
def ValidHeaderFieldName (s : Str) : Bool :=
  !s.isEmpty && s.all validHeaderFieldByte

/-- A Go `http.Header` (`map[string][]string`) as the list of its entries. -/
abbrev Header := List (Str × List Str)

namespace Header

/-- The keys of the map. -/
def keys (h : Header) : List Str := h.map Prod.fst

/-- Map access `h[key]`: the value slice, `nil` for a missing key. -/
def valuesAt : Header → Str → List Str
  | [], _ => []
  | (n, vs) :: t, key => if n = key then vs else valuesAt t key

/-- Map update `h[key] = append(h[key], v)`. -/
def appendAt : Header → Str → Str → Header
  | [], key, v => [(key, [v])]
  | (n, vs) :: t, key, v =>
    if n = key then (n, vs ++ [v]) :: t else (n, vs) :: appendAt t key v

/-- Map update `h[key] = []string{v}`. -/
def setAt : Header → Str → Str → Header
  | [], key, v => [(key, [v])]
  | (n, vs) :: t, key, v =>
    if n = key then (n, [v]) :: t else (n, vs) :: setAt t key v

/-- Go `Header.Add`: the key is canonicalised, the value appended. -/
def Add (h : Header) (key value : Str) : Header :=
  appendAt h (CanonicalMIMEHeaderKey key) value

/-- Go `Header.Set`: the key is canonicalised, the values replaced. -/
def Set (h : Header) (key value : Str) : Header :=
  setAt h (CanonicalMIMEHeaderKey key) value

/-- Go `Header.Del`. -/
def Del (h : Header) (key : Str) : Header :=
  h.filter (fun e => e.1 ≠ CanonicalMIMEHeaderKey key)

/-- Go `Header.Values`: all values under the canonical form of the key. -/
def Values (h : Header) (key : Str) : List Str :=
  valuesAt h (CanonicalMIMEHeaderKey key)

/-- Go `Header.Get`: the first value under the canonical form of the key,
the empty string if there is none. -/
def Get (h : Header) (key : Str) : Str :=
  (Values h key).headD []

end Header

/-! ## `http.ResponseWriter` -/

/-- The response under construction, with the behaviour that the
`ResponseWriter` of `net/http` and `httptest.ResponseRecorder` share:
`HeaderMap` is the map returned by `w.Header()`; the first `WriteHeader` fixes
the status code and the headers sent with it (`snapHeader`); later changes of
the map and later `WriteHeader` calls do not reach the caller. -/
structure ResponseWriter where
  HeaderMap : Header
  wroteHeader : Bool
  Code : Int
  snapHeader : Header
  Body : List UInt8

/-- A fresh response writer. -/
def ResponseWriter.fresh : ResponseWriter :=
  { HeaderMap := [], wroteHeader := false, Code := 200, snapHeader := [], Body := [] }

/-- How a piece of handler code ends: it returns, or it panics with a value.
Either way the response writer is left in some state. -/
inductive Exit where
  | returned (w : ResponseWriter)
  | panicked (v : Str) (w : ResponseWriter)

/-- The response writer at the end. -/
def Exit.writer : Exit → ResponseWriter
  | .returned w => w
  | .panicked _ w => w

/-- Go `w.WriteHeader(code)`. A second call is ignored; otherwise
`checkWriteHeaderCode` panics on a code that is not three digits
(`code < 100 || code > 999`), with the value
`fmt.Sprintf("invalid WriteHeader code %v", code)`. Informational codes
(100 to 199 except 101) are not treated specially: the handler only passes
constants and `resp.StatusCode`, and `client.Do` consumes informational
responses itself. -/
def ResponseWriter.WriteHeader (w : ResponseWriter) (code : Int) : Exit :=
  if w.wroteHeader then .returned w
  else if code < 100 ∨ code > 999 then
    .panicked ("invalid WriteHeader code ".toList ++ (toString code).toList) w
  else .returned { w with wroteHeader := true, Code := code, snapHeader := w.HeaderMap }

/-- Go `w.Write(data)`: writes the header with status 200 first if it was not
written yet. With no data this is what the server does when a handler returns
without having written anything. -/
def ResponseWriter.Write (w : ResponseWriter) (data : List UInt8) : ResponseWriter :=
  let w1 : ResponseWriter :=
    if w.wroteHeader then w
    else { w with wroteHeader := true, Code := 200, snapHeader := w.HeaderMap }
  { w1 with Body := w1.Body ++ data }

/-- Go `http.Error(w, error, code)`: deletes `Content-Length`, sets
`Content-Type` and `X-Content-Type-Options`, writes the status code and then
the message followed by a newline (`fmt.Fprintln`). -/
def http_Error (w : ResponseWriter) (error : Str) (code : Int) : Exit :=
  let h1 := Header.Del w.HeaderMap "Content-Length".toList
  let h2 := Header.Set h1 "Content-Type".toList "text/plain; charset=utf-8".toList
  let h3 := Header.Set h2 "X-Content-Type-Options".toList "nosniff".toList
  match ResponseWriter.WriteHeader { w with HeaderMap := h3 } code with
  | .returned w1 => .returned (w1.Write (bytes (error ++ "\n".toList)))
  | .panicked v w1 => .panicked v w1

/-- Go `http.Redirect(w, r, url, code)` for a `url` that has a scheme and
consists of ASCII characters without HTML metacharacters, as the constant at
the only call site does: the URL is used as it is (it is not resolved against
the request path and needs no escaping). A `GET` request gets a short HTML
body, `GET` and `HEAD` get a `Content-Type`, unless one was already set.
`statusText` is `http.StatusText(code)`. -/
def http_Redirect (w : ResponseWriter) (method url : Str) (code : Int) (statusText : Str) :
    Exit :=
  let hadCT := decide ("Content-Type".toList ∈ Header.keys w.HeaderMap)
  let h1 := Header.Set w.HeaderMap "Location".toList url
  let h2 := if !hadCT && (method == "GET".toList || method == "HEAD".toList)
            then Header.Set h1 "Content-Type".toList "text/html; charset=utf-8".toList else h1
  match ResponseWriter.WriteHeader { w with HeaderMap := h2 } code with
  | .returned w1 =>
    if !hadCT && method == "GET".toList then
      .returned (w1.Write (bytes ("<a href=\"".toList ++ url ++ "\">".toList ++ statusText
        ++ "</a>.\n".toList ++ "\n".toList)))
    else .returned w1
  | .panicked v w1 => .panicked v w1

/-! ## The handler -/

/-- The inbound request: `r.Method`, `r.URL.Path`, `r.URL.RawQuery`,
`r.Header` (entries in the order of the `range` loop) and the bytes of `r.Body`. -/
structure Request where
  Method : Str
  Path : Str
  RawQuery : Str
  Header : Header
  Body : List UInt8

/-- The outbound request handed to `client.Do`. -/
structure OutboundRequest where
  Method : Str
  URL : Str
  Header : Header
  Host : Str
  Body : List UInt8

/-- The upstream response returned by `client.Do`: status code, `resp.Header`
(entries in the order of the `range` loop), the bytes that `io.Copy` moves from
`resp.Body` to the caller, and the error `io.Copy` returns after them, if any. -/
structure UpstreamResponse where
  StatusCode : Int
  Header : Header
  Body : List UInt8
  copyErr : Option Str

/-- Everything outside the handler: the Unicode tables, whether
`http.NewRequest(method, url, body)` fails (with which error), what comes back
when the client puts an outbound request on the wire (`roundTrip`: the upstream
response, or an error such as a refused connection, an unsupported scheme or a
missing host), and the error value with which the client refuses a request it
does not send (its text only reaches the server log). -/
structure Env where
  tables : UnicodeTables
  newRequestErr : Str → Str → Option Str
  roundTrip : OutboundRequest → Except Str UpstreamResponse
  refusal : OutboundRequest → Str

/-- The check of Go `http.Transport.roundTrip` on the header names of a
request: every key of the header map is a valid header field name. -/
def validNames (h : Header) : Bool := (Header.keys h).all ValidHeaderFieldName

/-- Source lines 84-85: `client.Do(outReq)` for `client := &http.Client{}`.
The transport refuses a request with an invalid header field name before
anything is sent (`net/http: invalid header field name`); otherwise the request
goes on the wire. -/
def Env.clientDo (env : Env) (req : OutboundRequest) : Except Str UpstreamResponse :=
  if validNames req.Header then env.roundTrip req else .error (env.refusal req)

/-- Source lines 14-19: `internalServerError(w, err)`; `none` is a nil error. -/
def internalServerError (w : ResponseWriter) (err : Option Str) : Exit :=
  match err with
  | some _ => http_Error w "Internal server error".toList 500
  | none => .returned w

/-- Source lines 65-70: the keys of the `allowedHeaders` map. -/
def allowedNames : List Str :=
  ["Authorization".toList, "Content-Type".toList, "User-Agent".toList, "Accept".toList]

/-- Source line 73: `allowedHeaders[strings.Title(strings.ToLower(k))]`. -/
def allowedHeaders (T : UnicodeTables) (k : Str) : Bool :=
  allowedNames.contains (strings_Title T (strings_ToLower T k))

/-- Source lines 74-76 and 94-96: `for _, vv := range v { h.Add(k, vv) }`. -/
def addValues (h : Header) (k : Str) (v : List Str) : Header :=
  v.foldl (fun acc vv => Header.Add acc k vv) h

/-- Source lines 72-78: the loop copying the allowed inbound headers. -/
def copyAllowed (T : UnicodeTables) (inbound : Header) (out : Header) : Header :=
  inbound.foldl (fun acc e => if allowedHeaders T e.1 then addValues acc e.1 e.2 else acc) out

/-- Source lines 93-97: the loop copying all upstream headers. -/
def copyAll (upstream : Header) (h : Header) : Header :=
  upstream.foldl (fun acc e => addValues acc e.1 e.2) h

/-- Source lines 29-32: the three fixed CORS headers. -/
def setCORS (w : ResponseWriter) : ResponseWriter :=
  let h1 := Header.Set w.HeaderMap "Access-Control-Allow-Origin".toList "*".toList
  let h2 := Header.Set h1 "Access-Control-Allow-Methods".toList
    "POST, GET, OPTIONS, PUT, DELETE".toList
  let h3 := Header.Set h2 "Access-Control-Allow-Headers".toList
    "Content-Type, Authorization".toList
  { w with HeaderMap := h3 }

/-- Source lines 57-78 and 81: the outbound request built from the inbound one
(`http.NewRequest` turns an empty method into `GET` and starts with an empty
header map). -/
def buildOutbound (T : UnicodeTables) (r : Request) (url : Str) : OutboundRequest :=
  { Method := if r.Method = [] then "GET".toList else r.Method
    URL := url
    Header := copyAllowed T r.Header []
    Host := []
    Body := r.Body }

/-- Source lines 92-104: relay of the upstream response. The header was written
just before `io.Copy`, so writing the copied bytes in one piece (or none at all
for an empty body) changes nothing but the body. -/
def relay (w : ResponseWriter) (resp : UpstreamResponse) : Exit :=
  let w1 := { w with HeaderMap := copyAll resp.Header w.HeaderMap }
  match w1.WriteHeader resp.StatusCode with
  | .returned w2 => internalServerError (w2.Write resp.Body) resp.copyErr
  | .panicked v w2 => .panicked v w2

/-- Source lines 29-104: the body of `Handler` without the deferred recovery.
The second component lists the outbound requests handed to `client.Do`. -/
def handlerBody (env : Env) (r : Request) : Exit × List OutboundRequest :=
  let w := setCORS ResponseWriter.fresh
  if r.Method = "OPTIONS".toList then
    (w.WriteHeader 200, [])
  else if r.Path = "/".toList then
    (http_Redirect w r.Method "https://github.com/TBXark/vercel-proxy".toList 301
      "Moved Permanently".toList, [])
  else
    let url := targetURL r.Path r.RawQuery
    if !HasPrefix url "http".toList then
      (http_Error w ("invalid url: ".toList ++ url) 400, [])
    else
      match env.newRequestErr r.Method url with
      | some err => (internalServerError w (some err), [])
      | none =>
        let outReq := buildOutbound env.tables r url
        match env.clientDo outReq with
        | .error err => (internalServerError w (some err), [outReq])
        | .ok resp => (relay w resp, [outReq])

/-- What the caller and the upstream see of one run of the handler: the
response, the outbound requests handed to `client.Do` (`sent`), and those among
them that the client forwards, that is, puts on the wire (`forwarded`). -/
structure Outcome where
  Code : Int
  Header : Header
  Body : List UInt8
  sent : List OutboundRequest
  forwarded : List OutboundRequest

/-- Source lines 22-27: the deferred function. After a normal return it does
nothing; a panic of the body is recovered and answered with `http.Error`,
status 500 and a message that contains the panic value. -/
def recovered : Exit → ResponseWriter
  | .returned w => w
  | .panicked v w => (http_Error w ("internal server error: ".toList ++ v) 500).writer

/-- Source lines 21-105: `Handler`, the body followed by the deferred function.
When the handler has returned the server completes the response (an unwritten
header is written with status 200). -/
def Handler (env : Env) (r : Request) : Outcome :=
  let run := handlerBody env r
  let w := (recovered run.1).Write []
  { Code := w.Code, Header := w.snapHeader, Body := w.Body, sent := run.2,
    forwarded := run.2.filter (fun out => validNames out.Header) }

/-! ## Comparing header names -/

/-- The ASCII code points, listed for case analysis. -/
def asciiChars : List Char := (List.range 128).map Char.ofNat

/-- ASCII case folding of a string: `A..Z` become `a..z`, all else is kept. -/
def foldASCII (s : Str) : Str := s.map asciiLower

/-- Equality of two names ignoring the case of ASCII letters, the comparison of
HTTP field names. -/
def EqualFoldASCII (a b : Str) : Prop := foldASCII a = foldASCII b

instance (a b : Str) : Decidable (EqualFoldASCII a b) :=
  inferInstanceAs (Decidable (foldASCII a = foldASCII b))

/-- Tables that leave every rune above ASCII alone; used only to evaluate the
library functions on ASCII strings, where the tables are never consulted. -/
def noTables : UnicodeTables :=
  { toLower := id, toTitle := id, isLetter := fun _ => false, isDigit := fun _ => false,
    isSpace := fun _ => false }

/-! ## The pattern read piece by piece, with backtracking

A second, generic reading of `^/*(https?:)/*`: the pattern as a list of pieces
and a backtracking matcher that tries the greedy alternative first, as the
leftmost-first semantics of package `regexp` prescribes. It is compared with
`matchTarget` below. -/

/-- The pieces a pattern is made of: a literal character, a greedy `c*`, a
greedy `c?`, and the two ends of capture group 1. -/
inductive Piece where
  | lit (c : Char)
  | star (c : Char)
  | opt (c : Char)
  | groupOpen
  | groupClose

/-- The text captured by group 1 so far, and whether the matcher is inside the
group. -/
structure Capture where
  recording : Bool
  text : Str

/-- The capture after the matcher consumed the character `c`. -/
def Capture.consume (cap : Capture) (c : Char) : Capture :=
  if cap.recording then { cap with text := cap.text ++ [c] } else cap

/-- Greedy `c*` followed by the continuation `k`: consume one more `c` if that
leads to a match, otherwise stop here. -/
def greedyStar (c : Char) (k : Capture → Str → Option (Str × Str)) :
    Capture → Str → Option (Str × Str)
  | cap, [] => k cap []
  | cap, x :: xs =>
    if x = c then
      match greedyStar c k (cap.consume x) xs with
      | some r => some r
      | none => k cap (x :: xs)
    else k cap (x :: xs)

/-- Backtracking match of a list of pieces at the start of the text, followed
by the continuation `k`. -/
def matchPieces : List Piece → (Capture → Str → Option (Str × Str)) →
    Capture → Str → Option (Str × Str)
  | [], k, cap, s => k cap s
  | .lit c :: ps, k, cap, s =>
    match s with
    | [] => none
    | x :: xs => if x = c then matchPieces ps k (cap.consume x) xs else none
  | .star c :: ps, k, cap, s => greedyStar c (matchPieces ps k) cap s
  | .opt c :: ps, k, cap, s =>
    match s with
    | [] => matchPieces ps k cap []
    | x :: xs =>
      if x = c then
        match matchPieces ps k (cap.consume x) xs with
        | some r => some r
        | none => matchPieces ps k cap (x :: xs)
      else matchPieces ps k cap (x :: xs)
  | .groupOpen :: ps, k, cap, s => matchPieces ps k { cap with recording := true } s
  | .groupClose :: ps, k, cap, s => matchPieces ps k { cap with recording := false } s

/-- Source line 47: the pattern `^/*(https?:)/*` after its anchor. -/
def pathPattern : List Piece :=
  [.star '/', .groupOpen, .lit 'h', .lit 't', .lit 't', .lit 'p', .opt 's', .lit ':',
   .groupClose, .star '/']

/-- The leftmost-first match of the anchored pattern: group 1 and the text
after the match. -/
def backtrackTarget (path : Str) : Option (Str × Str) :=
  matchPieces pathPattern (fun cap rest => some (cap.text, rest))
    { recording := false, text := [] } path

/-! ## The fixed CORS headers -/

/-- The header map after source lines 30-32. -/
def corsHeader : Header :=
  [("Access-Control-Allow-Origin".toList, ["*".toList]),
   ("Access-Control-Allow-Methods".toList, ["POST, GET, OPTIONS, PUT, DELETE".toList]),
   ("Access-Control-Allow-Headers".toList, ["Content-Type, Authorization".toList])]

/-- A header map carries the three fixed CORS headers: `Header.Get`, the first
value under the name, returns the fixed value for each of them. -/
def carriesCORS (h : Header) : Prop :=
  Header.Get h "Access-Control-Allow-Origin".toList = "*".toList ∧
  Header.Get h "Access-Control-Allow-Methods".toList
    = "POST, GET, OPTIONS, PUT, DELETE".toList ∧
  Header.Get h "Access-Control-Allow-Headers".toList = "Content-Type, Authorization".toList

/-- The fixed value is the first value stored under each CORS name. -/
def corsFirst (h : Header) : Prop :=
  ∀ e ∈ corsHeader, e.2 <+: Header.valuesAt h e.1

/-- The CORS headers are in the header map and, once the header is written, in
the headers sent. -/
def corsKept (w : ResponseWriter) : Prop :=
  corsFirst w.HeaderMap ∧ (w.wroteHeader = true → corsFirst w.snapHeader)

/-- The header map after `http.Error` ran on the map of lines 30-32. -/
def errorHeader : Header :=
  corsHeader ++
    [("Content-Type".toList, ["text/plain; charset=utf-8".toList]),
     ("X-Content-Type-Options".toList, ["nosniff".toList])]

/-! ## Sample environments and requests -/

/-- An environment in which construction succeeds and the upstream answers
every request with `resp`. -/
def upstreamEnv (resp : UpstreamResponse) : Env :=
  { tables := noTables, newRequestErr := fun _ _ => none, roundTrip := fun _ => .ok resp,
    refusal := fun _ => "net/http: invalid header field name".toList }

/-- An environment in which construction succeeds and dispatch fails. -/
def unreachableEnv : Env :=
  { tables := noTables, newRequestErr := fun _ _ => none,
    roundTrip := fun _ => .error "dial tcp: connection refused".toList,
    refusal := fun _ => "net/http: invalid header field name".toList }

/-- A request without headers and body. -/
def plainRequest (method path rawQuery : String) : Request :=
  { Method := method.toList, Path := path.toList, RawQuery := rawQuery.toList,
    Header := [], Body := [] }

/-- The upstream response of the round-trip example of the specification:
status 201, header `X-Test: ok`, body `hello`. -/
def createdResponse : UpstreamResponse :=
  { StatusCode := 201, Header := [("X-Test".toList, ["ok".toList])],
    Body := bytes "hello".toList, copyErr := none }

/-- An upstream response whose status line carries the code `099`. -/
def status99Response : UpstreamResponse :=
  { StatusCode := 99, Header := [], Body := [], copyErr := none }

/-- A request with the given headers for `https://example.com/`. -/
def requestWith (headers : List (String × List String)) : Request :=
  { Method := "GET".toList, Path := "/https://example.com/".toList, RawQuery := [],
    Header := headers.map (fun e => (e.1.toList, e.2.map String.toList)), Body := [] }

/-! ## Lemmas: the path pattern -/

theorem skipSlashes_replicate (a : Nat) (t : Str) :
    skipSlashes (List.replicate a '/' ++ t) = skipSlashes t := by
  induction a with
  | zero => simp
  | succ n ih => simp [List.replicate_succ, skipSlashes, ih]

theorem skipSlashes_of_head (t : Str) (h : t.head? ≠ some '/') : skipSlashes t = t := by
  cases t with
  | nil => rfl
  | cons c cs =>
    have hc : c ≠ '/' := by simpa using h
    simp [skipSlashes, hc]

theorem skipSlashes_head (t : Str) : (skipSlashes t).head? ≠ some '/' := by
  induction t with
  | nil => simp [skipSlashes]
  | cons c cs ih =>
    by_cases hc : c = '/'
    · simpa [skipSlashes, hc] using ih
    · simp [skipSlashes, hc]

theorem skipSlashes_slash_cons (t : Str) : skipSlashes ('/' :: t) = skipSlashes t := by
  simp [skipSlashes]

theorem matchScheme_https (t : Str) :
    matchScheme ("https".toList ++ ":".toList ++ t) = some ("https:".toList, t) := by
  simp [matchScheme, String.toList]

theorem matchScheme_http (t : Str) :
    matchScheme ("http".toList ++ ":".toList ++ t) = some ("http:".toList, t) := by
  simp [matchScheme, String.toList]

theorem matchScheme_some (s g r : Str) (h : matchScheme s = some (g, r)) :
    (g = "https:".toList ∨ g = "http:".toList) ∧ s = g ++ r := by
  unfold matchScheme at h
  split at h
  · rename_i hp
    simp only [Option.some.injEq, Prod.mk.injEq] at h
    obtain ⟨rfl, rfl⟩ := h
    refine ⟨Or.inl rfl, ?_⟩
    have := List.isPrefixOf_iff_prefix.mp hp
    obtain ⟨t, rfl⟩ := this
    simp [String.toList]
  · split at h
    · rename_i hp
      simp only [Option.some.injEq, Prod.mk.injEq] at h
      obtain ⟨rfl, rfl⟩ := h
      refine ⟨Or.inr rfl, ?_⟩
      have := List.isPrefixOf_iff_prefix.mp hp
      obtain ⟨t, rfl⟩ := this
      simp [String.toList]
    · simp at h

theorem replacePath_scheme (a b : Nat) (s rest : Str)
    (hs : s = "http".toList ∨ s = "https".toList) (hrest : rest.head? ≠ some '/') :
    replacePath (List.replicate a '/' ++ s ++ ":".toList ++ List.replicate b '/' ++ rest)
      = s ++ "://".toList ++ rest := by
  have h1 : skipSlashes (List.replicate b '/' ++ rest) = rest := by
    rw [skipSlashes_replicate, skipSlashes_of_head _ hrest]
  have h0 : skipSlashes (List.replicate a '/' ++ s ++ ":".toList ++ List.replicate b '/' ++ rest)
      = s ++ ":".toList ++ (List.replicate b '/' ++ rest) := by
    rw [List.append_assoc, List.append_assoc, List.append_assoc, skipSlashes_replicate]
    rcases hs with rfl | rfl <;> simp [skipSlashes, String.toList]
  unfold replacePath matchTarget
  rw [h0]
  rcases hs with rfl | rfl
  · rw [matchScheme_http]; simp [h1, String.toList]
  · rw [matchScheme_https]; simp [h1, String.toList]

theorem replacePath_cases (path : Str) :
    (∃ r, replacePath path = "https://".toList ++ r) ∨
    (∃ r, replacePath path = "http://".toList ++ r) ∨
    (replacePath path = path ∧ matchTarget path = none) := by
  unfold replacePath
  cases hm : matchTarget path with
  | none => simp
  | some p =>
    obtain ⟨g, r⟩ := p
    unfold matchTarget at hm
    cases hs : matchScheme (skipSlashes path) with
    | none => simp [hs] at hm
    | some p2 =>
      obtain ⟨g2, r2⟩ := p2
      simp only [hs, Option.some.injEq, Prod.mk.injEq] at hm
      obtain ⟨rfl, rfl⟩ := hm
      rcases (matchScheme_some _ _ _ hs).1 with rfl | rfl
      · left; exact ⟨skipSlashes r2, by simp [String.toList]⟩
      · right; left; exact ⟨skipSlashes r2, by simp [String.toList]⟩

/-- A validated URL derived from a path that begins with `/` has a full scheme. -/
theorem validated_full_scheme (path q : Str) (hp : path.head? = some '/')
    (hv : HasPrefix (targetURL path q) "http".toList = true) :
    HasPrefix (targetURL path q) "http://".toList = true ∨
    HasPrefix (targetURL path q) "https://".toList = true := by
  rcases replacePath_cases path with ⟨r, hr⟩ | ⟨r, hr⟩ | ⟨hr, _⟩
  · right
    unfold targetURL HasPrefix
    rw [hr]
    by_cases hq : q = [] <;> simp [hq, String.toList]
  · left
    unfold targetURL HasPrefix
    rw [hr]
    by_cases hq : q = [] <;> simp [hq, String.toList]
  · exfalso
    cases path with
    | nil => simp at hp
    | cons c cs =>
      have hc : c = '/' := by simpa using hp
      subst hc
      unfold targetURL HasPrefix at hv
      rw [hr] at hv
      by_cases hq : q = [] <;> simp [hq, String.toList] at hv

/-! ## Lemmas: the direct matcher agrees with the backtracking reading -/

/-- A greedy `/*` in front of a continuation that accepts whatever follows
takes the longest run of `/`. -/
theorem greedyStar_accepting (k : Capture → Str → Option (Str × Str)) (cap : Capture)
    (hrec : cap.recording = false) (hk : ∀ s, (k cap s).isSome = true) (s : Str) :
    greedyStar '/' k cap s = k cap (skipSlashes s) := by
  induction s with
  | nil => rfl
  | cons x xs ih =>
    by_cases hx : x = '/'
    · subst hx
      have hc : cap.consume '/' = cap := by simp [Capture.consume, hrec]
      simp only [greedyStar, if_true, hc, ih, skipSlashes]
      cases hr : k cap (skipSlashes xs) with
      | some r => rfl
      | none =>
        have := hk (skipSlashes xs)
        rw [hr] at this
        exact Bool.noConfusion this
    · simp [greedyStar, skipSlashes, hx]

/-- A greedy `/*` in front of a continuation that rejects every text starting
with `/` takes the longest run of `/`. -/
theorem greedyStar_rejecting (k : Capture → Str → Option (Str × Str)) (cap : Capture)
    (hrec : cap.recording = false) (hk : ∀ xs, k cap ('/' :: xs) = none) (s : Str) :
    greedyStar '/' k cap s = k cap (skipSlashes s) := by
  induction s with
  | nil => rfl
  | cons x xs ih =>
    by_cases hx : x = '/'
    · subst hx
      have hc : cap.consume '/' = cap := by simp [Capture.consume, hrec]
      simp only [greedyStar, if_true, hc, ih, skipSlashes]
      cases hr : k cap (skipSlashes xs) with
      | some r => rfl
      | none => exact hk xs
    · simp [greedyStar, skipSlashes, hx]

/-- The pieces after the leading `/*`, matched at a text without leading `/`. -/
theorem matchPieces_scheme (s : Str) :
    matchPieces [.groupOpen, .lit 'h', .lit 't', .lit 't', .lit 'p', .opt 's', .lit ':',
        .groupClose, .star '/'] (fun cap rest => some (cap.text, rest))
      { recording := false, text := [] } s
    = match matchScheme s with
      | some (g1, rest) => some (g1, skipSlashes rest)
      | none => none := by
  have hfin : ∀ (g : Str) (r : Str),
      greedyStar '/' (fun cap rest => some (cap.text, rest))
        { recording := false, text := g } r = some (g, skipSlashes r) := fun g r =>
    greedyStar_accepting (fun cap rest => some (cap.text, rest)) _ rfl (fun _ => rfl) r
  rcases s with _ | ⟨c1, _ | ⟨c2, _ | ⟨c3, _ | ⟨c4, _ | ⟨c5, _ | ⟨c6, r⟩⟩⟩⟩⟩⟩ <;>
    simp only [matchPieces, matchScheme, Capture.consume, hfin] <;>
    simp [String.toList, @eq_comm Char 'h', @eq_comm Char 't', @eq_comm Char 'p',
      @eq_comm Char 's', @eq_comm Char ':'] <;>
    (try split_ifs) <;> simp_all

/-- The direct matcher `matchTarget` computes the leftmost-first match of the
pattern `^/*(https?:)/*`. -/
theorem matchTarget_eq_backtrackTarget (path : Str) :
    matchTarget path = backtrackTarget path := by
  unfold backtrackTarget pathPattern matchTarget
  have hrej : ∀ xs, matchPieces [.groupOpen, .lit 'h', .lit 't', .lit 't', .lit 'p', .opt 's',
      .lit ':', .groupClose, .star '/'] (fun cap rest => some (cap.text, rest))
      { recording := false, text := [] } ('/' :: xs) = none := by
    intro xs
    simp [matchPieces]
  show _ = greedyStar '/' _ _ path
  rw [greedyStar_rejecting _ _ rfl hrej path, matchPieces_scheme]

/-! ## Lemmas: header maps -/

namespace Header

theorem valuesAt_appendAt (h : Header) (k v n : Str) :
    valuesAt (appendAt h k v) n = if n = k then valuesAt h n ++ [v] else valuesAt h n := by
  induction h with
  | nil =>
    by_cases hn : n = k
    · subst hn; simp [appendAt, valuesAt]
    · have hk : ¬ k = n := fun e => hn e.symm
      simp [appendAt, valuesAt, hn, hk]
  | cons e t ih =>
    obtain ⟨m, vs⟩ := e
    by_cases hm : m = k
    · subst hm
      by_cases hn : n = m
      · subst hn; simp [appendAt, valuesAt]
      · have hk : ¬ m = n := fun e => hn e.symm
        simp [appendAt, valuesAt, hn, hk]
    · by_cases hmn : m = n
      · subst hmn
        simp [appendAt, valuesAt, hm]
      · simp [appendAt, valuesAt, hm, hmn, ih]

theorem valuesAt_setAt (h : Header) (k v n : Str) :
    valuesAt (setAt h k v) n = if n = k then [v] else valuesAt h n := by
  induction h with
  | nil =>
    by_cases hn : n = k
    · subst hn; simp [setAt, valuesAt]
    · have hk : ¬ k = n := fun e => hn e.symm
      simp [setAt, valuesAt, hn, hk]
  | cons e t ih =>
    obtain ⟨m, vs⟩ := e
    by_cases hm : m = k
    · subst hm
      by_cases hn : n = m
      · subst hn; simp [setAt, valuesAt]
      · have hk : ¬ m = n := fun e => hn e.symm
        simp [setAt, valuesAt, hn, hk]
    · by_cases hmn : m = n
      · subst hmn
        simp [setAt, valuesAt, hm]
      · simp [setAt, valuesAt, hm, hmn, ih]

theorem valuesAt_filter (h : Header) (k n : Str) :
    valuesAt (h.filter (fun e => e.1 ≠ k)) n = if n = k then [] else valuesAt h n := by
  induction h with
  | nil => simp [valuesAt]
  | cons e t ih =>
    obtain ⟨m, vs⟩ := e
    by_cases hm : m = k
    · subst hm
      by_cases hn : n = m
      · subst hn; simpa [List.filter, valuesAt] using ih
      · have hk : ¬ m = n := fun e => hn e.symm
        simpa [List.filter, valuesAt, hn, hk] using ih
    · by_cases hmn : m = n
      · subst hmn
        simp [List.filter, valuesAt, hm]
      · simpa [List.filter, valuesAt, hm, hmn] using ih

theorem mem_keys_appendAt (h : Header) (k v n : Str) :
    n ∈ keys (appendAt h k v) ↔ n = k ∨ n ∈ keys h := by
  induction h with
  | nil => simp [appendAt, keys]
  | cons e t ih =>
    obtain ⟨m, vs⟩ := e
    by_cases hm : m = k
    · subst hm
      simp [appendAt, keys]
    · simp only [appendAt, hm, if_false]
      simp only [keys, List.map_cons, List.mem_cons] at ih ⊢
      rw [ih]
      tauto

theorem Values_Add (h : Header) (k v n : Str) :
    valuesAt (Add h k v) n
      = if n = CanonicalMIMEHeaderKey k then valuesAt h n ++ [v] else valuesAt h n :=
  valuesAt_appendAt h _ v n

theorem Values_Set (h : Header) (k v n : Str) :
    valuesAt (Set h k v) n = if n = CanonicalMIMEHeaderKey k then [v] else valuesAt h n :=
  valuesAt_setAt h _ v n

theorem Values_Del (h : Header) (k n : Str) :
    valuesAt (Del h k) n = if n = CanonicalMIMEHeaderKey k then [] else valuesAt h n :=
  valuesAt_filter h _ n

end Header

theorem valuesAt_addValues (h : Header) (k : Str) (vs : List Str) (n : Str) :
    Header.valuesAt (addValues h k vs) n
      = if n = CanonicalMIMEHeaderKey k then Header.valuesAt h n ++ vs
        else Header.valuesAt h n := by
  unfold addValues
  induction vs generalizing h with
  | nil => simp
  | cons v t ih =>
    rw [List.foldl_cons, ih, Header.Values_Add]
    by_cases hn : n = CanonicalMIMEHeaderKey k <;> simp [hn]

theorem mem_keys_addValues (h : Header) (k : Str) (vs : List Str) (n : Str) :
    n ∈ Header.keys (addValues h k vs)
      ↔ n ∈ Header.keys h ∨ (vs ≠ [] ∧ n = CanonicalMIMEHeaderKey k) := by
  unfold addValues
  induction vs generalizing h with
  | nil => simp
  | cons v t ih =>
    rw [List.foldl_cons, ih]
    unfold Header.Add
    rw [Header.mem_keys_appendAt]
    by_cases ht : t = [] <;> simp [ht] <;> tauto

/-- The values under a key only grow at the end when headers are added. -/
theorem valuesAt_addValues_grows (h : Header) (k : Str) (vs : List Str) (n : Str) :
    Header.valuesAt h n <+: Header.valuesAt (addValues h k vs) n := by
  rw [valuesAt_addValues]
  by_cases hn : n = CanonicalMIMEHeaderKey k
  · simp [hn]
  · simp [hn]

theorem valuesAt_copyAll_grows (up h : Header) (n : Str) :
    Header.valuesAt h n <+: Header.valuesAt (copyAll up h) n := by
  unfold copyAll
  induction up generalizing h with
  | nil => simp
  | cons e t ih =>
    rw [List.foldl_cons]
    exact (valuesAt_addValues_grows h e.1 e.2 n).trans (ih _)

theorem valuesAt_copyAll_infix (up h : Header) (e : Str × List Str) (he : e ∈ up) :
    e.2 <:+: Header.valuesAt (copyAll up h) (CanonicalMIMEHeaderKey e.1) := by
  induction up generalizing h with
  | nil => simp at he
  | cons a t ih =>
    rcases List.mem_cons.mp he with rfl | ht
    · have h1 : e.2 <:+: Header.valuesAt (addValues h e.1 e.2) (CanonicalMIMEHeaderKey e.1) := by
        rw [valuesAt_addValues]
        simp only [if_true]
        exact (List.suffix_append _ _).isInfix
      have h2 := valuesAt_copyAll_grows t (addValues h e.1 e.2) (CanonicalMIMEHeaderKey e.1)
      have : copyAll (e :: t) h = copyAll t (addValues h e.1 e.2) := by
        simp [copyAll]
      rw [this]
      exact h1.trans h2.isInfix
    · have : copyAll (a :: t) h = copyAll t (addValues h a.1 a.2) := by
        simp [copyAll]
      rw [this]
      exact ih _ ht

theorem valuesAt_copyAllowed_grows (T : UnicodeTables) (inb h : Header) (n : Str) :
    Header.valuesAt h n <+: Header.valuesAt (copyAllowed T inb h) n := by
  unfold copyAllowed
  induction inb generalizing h with
  | nil => simp
  | cons e t ih =>
    rw [List.foldl_cons]
    by_cases ha : allowedHeaders T e.1 = true
    · simp only [ha, if_true]
      exact (valuesAt_addValues_grows h e.1 e.2 n).trans (ih _)
    · simp only [ha]
      exact ih _

theorem valuesAt_copyAllowed_infix (T : UnicodeTables) (inb h : Header) (e : Str × List Str)
    (he : e ∈ inb) (ha : allowedHeaders T e.1 = true) :
    e.2 <:+: Header.valuesAt (copyAllowed T inb h) (CanonicalMIMEHeaderKey e.1) := by
  induction inb generalizing h with
  | nil => simp at he
  | cons a t ih =>
    rcases List.mem_cons.mp he with rfl | ht
    · have h1 : e.2 <:+: Header.valuesAt (addValues h e.1 e.2) (CanonicalMIMEHeaderKey e.1) := by
        rw [valuesAt_addValues]
        simp only [if_true]
        exact (List.suffix_append _ _).isInfix
      have h2 := valuesAt_copyAllowed_grows T t (addValues h e.1 e.2)
        (CanonicalMIMEHeaderKey e.1)
      have : copyAllowed T (e :: t) h = copyAllowed T t (addValues h e.1 e.2) := by
        simp [copyAllowed, ha]
      rw [this]
      exact h1.trans h2.isInfix
    · by_cases haa : allowedHeaders T a.1 = true
      · have : copyAllowed T (a :: t) h = copyAllowed T t (addValues h a.1 a.2) := by
          simp [copyAllowed, haa]
        rw [this]
        exact ih _ ht
      · have : copyAllowed T (a :: t) h = copyAllowed T t h := by
          simp [copyAllowed, haa]
        rw [this]
        exact ih _ ht

/-- Every key of the filtered header map comes from an inbound entry that
passed the allow-list test and has at least one value. -/
theorem mem_keys_copyAllowed (T : UnicodeTables) (inb h : Header) (n : Str)
    (hn : n ∈ Header.keys (copyAllowed T inb h)) :
    n ∈ Header.keys h ∨
      ∃ e ∈ inb, allowedHeaders T e.1 = true ∧ e.2 ≠ [] ∧ n = CanonicalMIMEHeaderKey e.1 := by
  induction inb generalizing h with
  | nil => left; simpa [copyAllowed] using hn
  | cons a t ih =>
    by_cases haa : allowedHeaders T a.1 = true
    · have : copyAllowed T (a :: t) h = copyAllowed T t (addValues h a.1 a.2) := by
        simp [copyAllowed, haa]
      rw [this] at hn
      rcases ih _ hn with h1 | ⟨e, he, h2⟩
      · rw [mem_keys_addValues] at h1
        rcases h1 with h1 | ⟨h3, h4⟩
        · exact Or.inl h1
        · exact Or.inr ⟨a, List.mem_cons_self _ _, haa, h3, h4⟩
      · exact Or.inr ⟨e, List.mem_cons_of_mem _ he, h2⟩
    · have : copyAllowed T (a :: t) h = copyAllowed T t h := by
        simp [copyAllowed, haa]
      rw [this] at hn
      rcases ih _ hn with h1 | ⟨e, he, h2⟩
      · exact Or.inl h1
      · exact Or.inr ⟨e, List.mem_cons_of_mem _ he, h2⟩

/-- The values stored under a key of the filtered header map are exactly the
values of the allowed inbound entries with that canonical key, in loop order. -/
theorem valuesAt_copyAllowed (T : UnicodeTables) (inb h : Header) (n : Str) :
    Header.valuesAt (copyAllowed T inb h) n
      = Header.valuesAt h n ++
        ((inb.filter (fun e => allowedHeaders T e.1 && decide (CanonicalMIMEHeaderKey e.1 = n))).map
          Prod.snd).flatten := by
  induction inb generalizing h with
  | nil => simp [copyAllowed]
  | cons a t ih =>
    by_cases haa : allowedHeaders T a.1 = true
    · have : copyAllowed T (a :: t) h = copyAllowed T t (addValues h a.1 a.2) := by
        simp [copyAllowed, haa]
      rw [this, ih, valuesAt_addValues]
      by_cases hk : n = CanonicalMIMEHeaderKey a.1
      · subst hk; simp [List.filter, haa]
      · have hk2 : ¬ CanonicalMIMEHeaderKey a.1 = n := fun e => hk e.symm
        simp [List.filter, haa, hk, hk2]
    · have : copyAllowed T (a :: t) h = copyAllowed T t h := by
        simp [copyAllowed, haa]
      rw [this, ih]
      simp [List.filter, haa]

/-! ## Lemmas: ASCII case mapping and canonical header keys -/

theorem mem_asciiChars (c : Char) (h : isASCII c = true) : c ∈ asciiChars := by
  unfold isASCII at h
  have h1 : c.toNat < 128 := by
    have := of_decide_eq_true h
    omega
  unfold asciiChars
  rw [List.mem_map]
  exact ⟨c.toNat, List.mem_range.mpr h1, Char.ofNat_toNat c⟩

theorem isUpperAZ_of_not_ascii (c : Char) (h : isASCII c = false) : isUpperAZ c = false := by
  unfold isASCII at h
  have := of_decide_eq_false h
  unfold isUpperAZ
  simp only [decide_eq_false_iff_not]
  omega

theorem isLowerAZ_of_not_ascii (c : Char) (h : isASCII c = false) : isLowerAZ c = false := by
  unfold isASCII at h
  have := of_decide_eq_false h
  unfold isLowerAZ
  simp only [decide_eq_false_iff_not]
  omega

theorem asciiLower_of_not_ascii (c : Char) (h : isASCII c = false) : asciiLower c = c := by
  simp [asciiLower, isUpperAZ_of_not_ascii c h]

theorem asciiUpper_of_not_ascii (c : Char) (h : isASCII c = false) : asciiUpper c = c := by
  simp [asciiUpper, isLowerAZ_of_not_ascii c h]

set_option maxRecDepth 100000 in
theorem ascii_facts : ∀ c ∈ asciiChars,
    isASCII (asciiLower c) = true ∧ isASCII (asciiUpper c) = true ∧
    asciiLower (asciiLower c) = asciiLower c ∧
    asciiLower (asciiUpper c) = asciiLower c ∧
    isUpperAZ (asciiLower c) = false ∧
    validHeaderFieldByte (asciiLower c) = validHeaderFieldByte c ∧
    (asciiLower c == '-') = (c == '-') ∧ (asciiUpper c == '-') = (c == '-') ∧
    asciiUpper (asciiLower c) = asciiUpper c := by
  decide

theorem ascii_fact (c : Char) (h : isASCII c = true) :
    isASCII (asciiLower c) = true ∧ isASCII (asciiUpper c) = true ∧
    asciiLower (asciiLower c) = asciiLower c ∧
    asciiLower (asciiUpper c) = asciiLower c ∧
    isUpperAZ (asciiLower c) = false ∧
    validHeaderFieldByte (asciiLower c) = validHeaderFieldByte c ∧
    (asciiLower c == '-') = (c == '-') ∧ (asciiUpper c == '-') = (c == '-') ∧
    asciiUpper (asciiLower c) = asciiUpper c :=
  ascii_facts c (mem_asciiChars c h)

theorem isASCII_asciiLower (c : Char) : isASCII (asciiLower c) = isASCII c := by
  cases h : isASCII c with
  | true => exact (ascii_fact c h).1
  | false => rw [asciiLower_of_not_ascii c h]; exact h

theorem isASCII_asciiUpper (c : Char) : isASCII (asciiUpper c) = isASCII c := by
  cases h : isASCII c with
  | true => exact (ascii_fact c h).2.1
  | false => rw [asciiUpper_of_not_ascii c h]; exact h

theorem asciiLower_asciiLower (c : Char) : asciiLower (asciiLower c) = asciiLower c := by
  cases h : isASCII c with
  | true => exact (ascii_fact c h).2.2.1
  | false => rw [asciiLower_of_not_ascii c h, asciiLower_of_not_ascii c h]

theorem asciiLower_asciiUpper (c : Char) : asciiLower (asciiUpper c) = asciiLower c := by
  cases h : isASCII c with
  | true => exact (ascii_fact c h).2.2.2.1
  | false => rw [asciiUpper_of_not_ascii c h]

theorem asciiUpper_asciiLower (c : Char) : asciiUpper (asciiLower c) = asciiUpper c := by
  cases h : isASCII c with
  | true => exact (ascii_fact c h).2.2.2.2.2.2.2.2
  | false => rw [asciiLower_of_not_ascii c h]

theorem isUpperAZ_asciiLower (c : Char) : isUpperAZ (asciiLower c) = false := by
  cases h : isASCII c with
  | true => exact (ascii_fact c h).2.2.2.2.1
  | false => rw [asciiLower_of_not_ascii c h]; exact isUpperAZ_of_not_ascii c h

theorem validHeaderFieldByte_asciiLower (c : Char) :
    validHeaderFieldByte (asciiLower c) = validHeaderFieldByte c := by
  cases h : isASCII c with
  | true => exact (ascii_fact c h).2.2.2.2.2.1
  | false => rw [asciiLower_of_not_ascii c h]

theorem asciiLower_beq_hyphen (c : Char) : (asciiLower c == '-') = (c == '-') := by
  cases h : isASCII c with
  | true => exact (ascii_fact c h).2.2.2.2.2.2.1
  | false => rw [asciiLower_of_not_ascii c h]

theorem asciiUpper_beq_hyphen (c : Char) : (asciiUpper c == '-') = (c == '-') := by
  cases h : isASCII c with
  | true => exact (ascii_fact c h).2.2.2.2.2.2.2.1
  | false => rw [asciiUpper_of_not_ascii c h]

theorem isLowerAZ_asciiLower (c : Char) :
    isLowerAZ (asciiLower c) = (isLowerAZ c || isUpperAZ c) := by
  cases h : isASCII c with
  | true =>
    revert c
    have : ∀ c ∈ asciiChars, isLowerAZ (asciiLower c) = (isLowerAZ c || isUpperAZ c) := by
      set_option maxRecDepth 100000 in decide
    exact fun c h => this c (mem_asciiChars c h)
  | false =>
    rw [asciiLower_of_not_ascii c h, isLowerAZ_of_not_ascii c h, isUpperAZ_of_not_ascii c h]
    rfl

theorem validHeaderFieldByte_ascii (c : Char) (h : validHeaderFieldByte c = true) :
    isASCII c = true := by
  unfold validHeaderFieldByte at h
  simp only [Bool.and_eq_true] at h
  exact h.1

/-- One step of the canonicalising loop: the rune written for `c`. -/
theorem canonicalLoop_cons (u : Bool) (c : Char) (cs : Str) :
    canonicalLoop u (c :: cs)
      = (if u && isLowerAZ c then asciiUpper c
          else if !u && isUpperAZ c then asciiLower c else c) ::
        canonicalLoop ((if u && isLowerAZ c then asciiUpper c
          else if !u && isUpperAZ c then asciiLower c else c) == '-') cs := rfl

theorem canonicalStep_fold (u : Bool) (c : Char) :
    (if u && isLowerAZ (asciiLower c) then asciiUpper (asciiLower c)
      else if !u && isUpperAZ (asciiLower c) then asciiLower (asciiLower c) else asciiLower c)
    = (if u && isLowerAZ c then asciiUpper c
      else if !u && isUpperAZ c then asciiLower c else c) := by
  rw [isLowerAZ_asciiLower, isUpperAZ_asciiLower, asciiUpper_asciiLower]
  cases u <;> cases hl : isLowerAZ c <;> cases hu : isUpperAZ c <;>
    simp [asciiLower, asciiUpper, hl, hu]

theorem canonicalLoop_foldASCII (u : Bool) (s : Str) :
    canonicalLoop u (foldASCII s) = canonicalLoop u s := by
  induction s generalizing u with
  | nil => rfl
  | cons c cs ih =>
    show canonicalLoop u (asciiLower c :: foldASCII cs) = canonicalLoop u (c :: cs)
    rw [canonicalLoop_cons, canonicalLoop_cons, canonicalStep_fold, ih]

theorem asciiLower_canonicalStep (u : Bool) (c : Char) :
    asciiLower (if u && isLowerAZ c then asciiUpper c
      else if !u && isUpperAZ c then asciiLower c else c) = asciiLower c := by
  cases u <;> cases hl : isLowerAZ c <;> cases hu : isUpperAZ c <;>
    simp [asciiLower_asciiLower, asciiLower_asciiUpper]

theorem foldASCII_canonicalLoop (u : Bool) (s : Str) :
    foldASCII (canonicalLoop u s) = foldASCII s := by
  induction s generalizing u with
  | nil => rfl
  | cons c cs ih =>
    rw [canonicalLoop_cons]
    show asciiLower _ :: foldASCII (canonicalLoop _ cs) = asciiLower c :: foldASCII cs
    rw [asciiLower_canonicalStep, ih]

/-- Canonicalisation changes at most the case of ASCII letters. -/
theorem foldASCII_CanonicalMIMEHeaderKey (s : Str) :
    foldASCII (CanonicalMIMEHeaderKey s) = foldASCII s := by
  unfold CanonicalMIMEHeaderKey
  split
  · exact foldASCII_canonicalLoop true s
  · rfl

theorem all_valid_foldASCII (s : Str) :
    (foldASCII s).all validHeaderFieldByte = s.all validHeaderFieldByte := by
  induction s with
  | nil => rfl
  | cons c cs ih =>
    show (asciiLower c :: foldASCII cs).all validHeaderFieldByte = _
    simp only [List.all_cons, validHeaderFieldByte_asciiLower, ih]

theorem all_isASCII_foldASCII (s : Str) :
    (foldASCII s).all isASCII = s.all isASCII := by
  induction s with
  | nil => rfl
  | cons c cs ih =>
    show (asciiLower c :: foldASCII cs).all isASCII = _
    simp only [List.all_cons, isASCII_asciiLower, ih]

/-- Names that agree up to ASCII case have the same canonical key, provided
they consist of token characters. -/
theorem CanonicalMIMEHeaderKey_congr (a b : Str) (h : EqualFoldASCII a b)
    (hb : b.all validHeaderFieldByte = true) :
    CanonicalMIMEHeaderKey a = CanonicalMIMEHeaderKey b := by
  have ha : a.all validHeaderFieldByte = true := by
    rw [← all_valid_foldASCII, h, all_valid_foldASCII]; exact hb
  unfold CanonicalMIMEHeaderKey
  rw [if_pos ha, if_pos hb, ← canonicalLoop_foldASCII true a, h, canonicalLoop_foldASCII]

/-- A name with a rune above ASCII is its own canonical key. -/
theorem CanonicalMIMEHeaderKey_of_not_ascii (s : Str) (h : s.all isASCII = false) :
    CanonicalMIMEHeaderKey s = s := by
  unfold CanonicalMIMEHeaderKey
  have : s.all validHeaderFieldByte = false := by
    cases hv : s.all validHeaderFieldByte with
    | false => rfl
    | true =>
      exfalso
      have h2 : s.all isASCII = true := by
        rw [List.all_eq_true] at hv ⊢
        exact fun c hc => validHeaderFieldByte_ascii c (hv c hc)
      rw [h2] at h
      exact Bool.noConfusion h
  simp [this]

theorem all_isASCII_CanonicalMIMEHeaderKey (s : Str) :
    (CanonicalMIMEHeaderKey s).all isASCII = s.all isASCII := by
  rw [← all_isASCII_foldASCII, foldASCII_CanonicalMIMEHeaderKey, all_isASCII_foldASCII]

/-! ## Lemmas: the allow-list test on ASCII names -/

theorem strings_ToLower_ascii (T : UnicodeTables) (s : Str) (h : s.all isASCII = true) :
    strings_ToLower T s = foldASCII s := by
  unfold strings_ToLower foldASCII
  apply List.map_congr_left
  intro c hc
  have := List.all_eq_true.mp h c hc
  simp [unicode_ToLower, this]

theorem isSeparator_ascii (T U : UnicodeTables) (c : Char) (h : isASCII c = true) :
    isSeparator T c = isSeparator U c := by
  simp [isSeparator, h]

theorem unicode_ToTitle_ascii (T : UnicodeTables) (c : Char) (h : isASCII c = true) :
    unicode_ToTitle T c = asciiUpper c := by
  simp [unicode_ToTitle, h]

/-- On ASCII strings `strings.Title` does not depend on the Unicode tables. -/
theorem titleFrom_ascii (T U : UnicodeTables) (p : Char) (s : Str) (hp : isASCII p = true)
    (hs : s.all isASCII = true) : titleFrom T p s = titleFrom U p s := by
  induction s generalizing p with
  | nil => rfl
  | cons c cs ih =>
    rw [List.all_cons, Bool.and_eq_true] at hs
    simp only [titleFrom]
    rw [isSeparator_ascii T U p hp, unicode_ToTitle_ascii T c hs.1,
      unicode_ToTitle_ascii U c hs.1, ih c hs.1 hs.2]

/-- On ASCII strings `strings.Title` changes at most the case of letters. -/
theorem foldASCII_titleFrom (T : UnicodeTables) (p : Char) (s : Str)
    (hs : s.all isASCII = true) : foldASCII (titleFrom T p s) = foldASCII s := by
  induction s generalizing p with
  | nil => rfl
  | cons c cs ih =>
    rw [List.all_cons, Bool.and_eq_true] at hs
    simp only [titleFrom]
    show asciiLower _ :: foldASCII (titleFrom T c cs) = asciiLower c :: foldASCII cs
    rw [ih c hs.2]
    congr 1
    cases isSeparator T p
    · rfl
    · simp only [if_true]
      rw [unicode_ToTitle_ascii T c hs.1, asciiLower_asciiUpper]

theorem foldASCII_foldASCII (s : Str) : foldASCII (foldASCII s) = foldASCII s := by
  induction s with
  | nil => rfl
  | cons c cs ih =>
    show asciiLower (asciiLower c) :: foldASCII (foldASCII cs) = asciiLower c :: foldASCII cs
    rw [asciiLower_asciiLower, ih]

theorem allowedHeaders_iff (T : UnicodeTables) (k : Str) :
    allowedHeaders T k = true ↔ strings_Title T (strings_ToLower T k) ∈ allowedNames := by
  simp [allowedHeaders]

/-- The four names of the allow-list are ASCII token strings in canonical form,
and `strings.Title` rebuilds each from its lower-case form. -/
theorem allowedNames_facts (name : Str) (h : name ∈ allowedNames) :
    name.all validHeaderFieldByte = true ∧ name.all isASCII = true ∧
    CanonicalMIMEHeaderKey name = name ∧
    titleFrom noTables ' ' (foldASCII name) = name := by
  simp only [allowedNames, List.mem_cons, List.mem_singleton, List.not_mem_nil, or_false] at h
  rcases h with rfl | rfl | rfl | rfl <;> decide

/-- A name equal to an allow-listed name up to ASCII case passes the test of
source line 73, and its canonical key is the allow-listed name. -/
theorem allowed_of_equalFold (T : UnicodeTables) (k name : Str) (hn : name ∈ allowedNames)
    (h : EqualFoldASCII k name) :
    allowedHeaders T k = true ∧ CanonicalMIMEHeaderKey k = name := by
  obtain ⟨hv, ha, hc, ht⟩ := allowedNames_facts name hn
  have hk : k.all isASCII = true := by
    rw [← all_isASCII_foldASCII, h, all_isASCII_foldASCII]; exact ha
  constructor
  · rw [allowedHeaders_iff]
    unfold strings_Title
    rw [strings_ToLower_ascii T k hk, h,
      titleFrom_ascii T noTables ' ' (foldASCII name) (by decide)
        (by rw [all_isASCII_foldASCII]; exact ha), ht]
    exact hn
  · rw [CanonicalMIMEHeaderKey_congr k name h hv, hc]

/-- An ASCII name that passes the test of source line 73 equals an allow-listed
name up to ASCII case. -/
theorem equalFold_of_allowed (T : UnicodeTables) (k : Str) (hk : k.all isASCII = true)
    (h : allowedHeaders T k = true) : ∃ name ∈ allowedNames, EqualFoldASCII k name := by
  rw [allowedHeaders_iff] at h
  refine ⟨_, h, ?_⟩
  unfold EqualFoldASCII strings_Title
  rw [strings_ToLower_ascii T k hk,
    foldASCII_titleFrom T ' ' (foldASCII k) (by rw [all_isASCII_foldASCII]; exact hk),
    foldASCII_foldASCII]

/-! ## Lemmas: the branches of the handler -/

theorem setCORS_fresh :
    setCORS ResponseWriter.fresh
      = { HeaderMap := corsHeader, wroteHeader := false, Code := 200,
          snapHeader := [], Body := [] } := by
  rfl

theorem http_Error_setCORS (msg : Str) (code : Int) (h1 : 100 ≤ code) (h2 : code ≤ 999) :
    http_Error (setCORS ResponseWriter.fresh) msg code
      = .returned { HeaderMap := errorHeader, wroteHeader := true, Code := code,
                    snapHeader := errorHeader, Body := bytes (msg ++ "\n".toList) } := by
  have hh : Header.Set (Header.Set (Header.Del corsHeader "Content-Length".toList)
      "Content-Type".toList "text/plain; charset=utf-8".toList)
      "X-Content-Type-Options".toList "nosniff".toList = errorHeader := by rfl
  have hc : ¬ (code < 100 ∨ code > 999) := by omega
  rw [setCORS_fresh]
  simp only [http_Error, hh, ResponseWriter.WriteHeader, hc, ResponseWriter.Write]
  simp

theorem handlerBody_options (env : Env) (r : Request) (hm : r.Method = "OPTIONS".toList) :
    handlerBody env r = ((setCORS ResponseWriter.fresh).WriteHeader 200, []) := by
  unfold handlerBody
  simp only [hm, ↓reduceIte]

theorem handlerBody_root (env : Env) (r : Request) (hm : r.Method ≠ "OPTIONS".toList)
    (hp : r.Path = "/".toList) :
    handlerBody env r
      = (http_Redirect (setCORS ResponseWriter.fresh) r.Method
          "https://github.com/TBXark/vercel-proxy".toList 301 "Moved Permanently".toList, []) := by
  unfold handlerBody
  simp only [hm, hp, ↓reduceIte]

theorem handlerBody_invalid (env : Env) (r : Request) (hm : r.Method ≠ "OPTIONS".toList)
    (hp : r.Path ≠ "/".toList)
    (hv : HasPrefix (targetURL r.Path r.RawQuery) "http".toList = false) :
    handlerBody env r
      = (http_Error (setCORS ResponseWriter.fresh)
          ("invalid url: ".toList ++ targetURL r.Path r.RawQuery) 400, []) := by
  unfold handlerBody
  simp only [hm, hp, hv, ↓reduceIte, Bool.not_false]

theorem handlerBody_construct (env : Env) (r : Request) (err : Str)
    (hm : r.Method ≠ "OPTIONS".toList) (hp : r.Path ≠ "/".toList)
    (hv : HasPrefix (targetURL r.Path r.RawQuery) "http".toList = true)
    (hn : env.newRequestErr r.Method (targetURL r.Path r.RawQuery) = some err) :
    handlerBody env r = (internalServerError (setCORS ResponseWriter.fresh) (some err), []) := by
  unfold handlerBody
  simp only [hm, hp, hv, hn, ↓reduceIte, Bool.not_true, Bool.false_eq_true]

theorem handlerBody_dispatch (env : Env) (r : Request) (err : Str)
    (hm : r.Method ≠ "OPTIONS".toList) (hp : r.Path ≠ "/".toList)
    (hv : HasPrefix (targetURL r.Path r.RawQuery) "http".toList = true)
    (hn : env.newRequestErr r.Method (targetURL r.Path r.RawQuery) = none)
    (hd : env.clientDo (buildOutbound env.tables r (targetURL r.Path r.RawQuery)) = .error err) :
    handlerBody env r
      = (internalServerError (setCORS ResponseWriter.fresh) (some err),
         [buildOutbound env.tables r (targetURL r.Path r.RawQuery)]) := by
  unfold handlerBody
  simp only [hm, hp, hv, hn, hd, ↓reduceIte, Bool.not_true, Bool.false_eq_true]

theorem handlerBody_relay (env : Env) (r : Request) (resp : UpstreamResponse)
    (hm : r.Method ≠ "OPTIONS".toList) (hp : r.Path ≠ "/".toList)
    (hv : HasPrefix (targetURL r.Path r.RawQuery) "http".toList = true)
    (hn : env.newRequestErr r.Method (targetURL r.Path r.RawQuery) = none)
    (hd : env.clientDo (buildOutbound env.tables r (targetURL r.Path r.RawQuery)) = .ok resp) :
    handlerBody env r
      = (relay (setCORS ResponseWriter.fresh) resp,
         [buildOutbound env.tables r (targetURL r.Path r.RawQuery)]) := by
  unfold handlerBody
  simp only [hm, hp, hv, hn, hd, ↓reduceIte, Bool.not_true, Bool.false_eq_true]

/-- The outbound requests of a run: none, or the one built from the request
after validation and construction succeeded. -/
theorem sent_cases (env : Env) (r : Request) :
    (Handler env r).sent = [] ∨
    ((Handler env r).sent = [buildOutbound env.tables r (targetURL r.Path r.RawQuery)] ∧
      r.Method ≠ "OPTIONS".toList ∧ r.Path ≠ "/".toList ∧
      HasPrefix (targetURL r.Path r.RawQuery) "http".toList = true ∧
      env.newRequestErr r.Method (targetURL r.Path r.RawQuery) = none) := by
  show (handlerBody env r).2 = [] ∨ ((handlerBody env r).2 = _ ∧ _)
  by_cases hm : r.Method = "OPTIONS".toList
  · left; rw [handlerBody_options env r hm]
  by_cases hp : r.Path = "/".toList
  · left; rw [handlerBody_root env r hm hp]
  cases hv : HasPrefix (targetURL r.Path r.RawQuery) "http".toList with
  | false => left; rw [handlerBody_invalid env r hm hp hv]
  | true =>
    cases hn : env.newRequestErr r.Method (targetURL r.Path r.RawQuery) with
    | some err => left; rw [handlerBody_construct env r err hm hp hv hn]
    | none =>
      right
      refine ⟨?_, hm, hp, rfl, rfl⟩
      cases hd : env.clientDo (buildOutbound env.tables r (targetURL r.Path r.RawQuery)) with
      | error err => rw [handlerBody_dispatch env r err hm hp hv hn hd]
      | ok resp => rw [handlerBody_relay env r resp hm hp hv hn hd]

theorem sent_forwarded (env : Env) (r : Request)
    (hm : r.Method ≠ "OPTIONS".toList) (hp : r.Path ≠ "/".toList)
    (hv : HasPrefix (targetURL r.Path r.RawQuery) "http".toList = true)
    (hn : env.newRequestErr r.Method (targetURL r.Path r.RawQuery) = none) :
    (Handler env r).sent = [buildOutbound env.tables r (targetURL r.Path r.RawQuery)] := by
  show (handlerBody env r).2 = _
  cases hd : env.clientDo (buildOutbound env.tables r (targetURL r.Path r.RawQuery)) with
  | error err => rw [handlerBody_dispatch env r err hm hp hv hn hd]
  | ok resp => rw [handlerBody_relay env r resp hm hp hv hn hd]

/-! ## Lemmas: the CORS headers survive every step -/

theorem corsFirst_corsHeader : corsFirst corsHeader := by
  intro e he
  simp only [corsHeader, List.mem_cons, List.mem_singleton, List.not_mem_nil, or_false] at he
  rcases he with rfl | rfl | rfl <;> exact ⟨[], rfl⟩

theorem corsFirst_Set (h : Header) (k v : Str)
    (hk : CanonicalMIMEHeaderKey k ∉ Header.keys corsHeader) (hc : corsFirst h) :
    corsFirst (Header.Set h k v) := by
  intro e he
  have hne : e.1 ≠ CanonicalMIMEHeaderKey k := by
    intro heq
    exact hk (heq ▸ List.mem_map_of_mem Prod.fst he)
  rw [Header.Values_Set, if_neg hne]
  exact hc e he

theorem corsFirst_Del (h : Header) (k : Str)
    (hk : CanonicalMIMEHeaderKey k ∉ Header.keys corsHeader) (hc : corsFirst h) :
    corsFirst (Header.Del h k) := by
  intro e he
  have hne : e.1 ≠ CanonicalMIMEHeaderKey k := by
    intro heq
    exact hk (heq ▸ List.mem_map_of_mem Prod.fst he)
  rw [Header.Values_Del, if_neg hne]
  exact hc e he

theorem corsFirst_copyAll (up h : Header) (hc : corsFirst h) : corsFirst (copyAll up h) :=
  fun e he => (hc e he).trans (valuesAt_copyAll_grows up h e.1)

theorem headD_of_singleton_start (v : Str) (l : List Str) (h : [v] <+: l) :
    l.headD [] = v := by
  obtain ⟨t, rfl⟩ := h
  rfl

theorem carriesCORS_of_corsFirst (h : Header) (hc : corsFirst h) : carriesCORS h := by
  refine ⟨?_, ?_, ?_⟩
  · exact headD_of_singleton_start _ _
      (hc ("Access-Control-Allow-Origin".toList, ["*".toList]) (by simp [corsHeader]))
  · exact headD_of_singleton_start _ _
      (hc ("Access-Control-Allow-Methods".toList, ["POST, GET, OPTIONS, PUT, DELETE".toList])
        (by simp [corsHeader]))
  · exact headD_of_singleton_start _ _
      (hc ("Access-Control-Allow-Headers".toList, ["Content-Type, Authorization".toList])
        (by simp [corsHeader]))

theorem corsKept_WriteHeader (w : ResponseWriter) (code : Int) (hw : corsKept w) :
    corsKept (w.WriteHeader code).writer := by
  unfold ResponseWriter.WriteHeader
  split
  · exact hw
  · split
    · exact hw
    · exact ⟨hw.1, fun _ => hw.1⟩

theorem corsKept_Write (w : ResponseWriter) (d : List UInt8) (hw : corsKept w) :
    corsKept (w.Write d) ∧ (w.Write d).wroteHeader = true := by
  unfold ResponseWriter.Write
  cases hwr : w.wroteHeader with
  | true => exact ⟨⟨hw.1, fun _ => hw.2 hwr⟩, hwr⟩
  | false => exact ⟨⟨hw.1, fun _ => hw.1⟩, rfl⟩

/-- Code that continues after a `WriteHeader` (or stops with its panic) keeps
the CORS headers if the continuation does. -/
theorem corsKept_after (e : Exit) (f : ResponseWriter → Exit) (he : corsKept e.writer)
    (hf : ∀ w1, corsKept w1 → corsKept (f w1).writer) :
    corsKept (match e with
      | .returned w1 => f w1
      | .panicked v w1 => .panicked v w1).writer := by
  cases e with
  | returned w1 => exact hf w1 he
  | panicked v w1 => exact he

theorem corsKept_http_Error (w : ResponseWriter) (msg : Str) (code : Int) (hw : corsKept w) :
    corsKept (http_Error w msg code).writer := by
  have hh : corsFirst (Header.Set (Header.Set (Header.Del w.HeaderMap "Content-Length".toList)
      "Content-Type".toList "text/plain; charset=utf-8".toList)
      "X-Content-Type-Options".toList "nosniff".toList) :=
    corsFirst_Set _ _ _ (by decide)
      (corsFirst_Set _ _ _ (by decide) (corsFirst_Del _ _ (by decide) hw.1))
  exact corsKept_after _ (fun w1 => .returned (w1.Write (bytes (msg ++ "\n".toList))))
    (corsKept_WriteHeader _ code ⟨hh, hw.2⟩) (fun w1 h1 => (corsKept_Write w1 _ h1).1)

theorem corsKept_http_Redirect (w : ResponseWriter) (method url text : Str) (code : Int)
    (hw : corsKept w) : corsKept (http_Redirect w method url code text).writer := by
  have h1 : corsFirst (Header.Set w.HeaderMap "Location".toList url) :=
    corsFirst_Set _ _ _ (by decide) hw.1
  have h2 : corsFirst (Header.Set (Header.Set w.HeaderMap "Location".toList url)
      "Content-Type".toList "text/html; charset=utf-8".toList) :=
    corsFirst_Set _ _ _ (by decide) h1
  have h3 : corsFirst (if (!decide ("Content-Type".toList ∈ Header.keys w.HeaderMap) &&
      (method == "GET".toList || method == "HEAD".toList)) = true
      then Header.Set (Header.Set w.HeaderMap "Location".toList url)
        "Content-Type".toList "text/html; charset=utf-8".toList
      else Header.Set w.HeaderMap "Location".toList url) := by
    split
    · exact h2
    · exact h1
  refine corsKept_after _ (fun w1 =>
    if (!decide ("Content-Type".toList ∈ Header.keys w.HeaderMap) && method == "GET".toList) = true
    then .returned (w1.Write (bytes ("<a href=\"".toList ++ url ++ "\">".toList ++ text
        ++ "</a>.\n".toList ++ "\n".toList)))
    else .returned w1)
    (corsKept_WriteHeader _ code ⟨h3, hw.2⟩) (fun w1 h4 => ?_)
  show corsKept (Exit.writer (if _ then _ else _))
  split
  · exact (corsKept_Write w1 _ h4).1
  · exact h4

theorem corsKept_internalServerError (w : ResponseWriter) (err : Option Str) (hw : corsKept w) :
    corsKept (internalServerError w err).writer := by
  cases err with
  | none => exact hw
  | some e => exact corsKept_http_Error w _ 500 hw

theorem corsKept_relay (w : ResponseWriter) (resp : UpstreamResponse) (hw : corsKept w) :
    corsKept (relay w resp).writer := by
  refine corsKept_after _ (fun w2 => internalServerError (w2.Write resp.Body) resp.copyErr)
    (corsKept_WriteHeader { w with HeaderMap := copyAll resp.Header w.HeaderMap }
      resp.StatusCode ⟨corsFirst_copyAll _ _ hw.1, hw.2⟩)
    (fun w1 h1 => corsKept_internalServerError _ _ (corsKept_Write w1 _ h1).1)

theorem corsKept_recovered (e : Exit) (he : corsKept e.writer) : corsKept (recovered e) := by
  cases e with
  | returned w => exact he
  | panicked v w => exact corsKept_http_Error w _ 500 he

theorem corsKept_setCORS : corsKept (setCORS ResponseWriter.fresh) := by
  rw [setCORS_fresh]
  exact ⟨corsFirst_corsHeader, fun h => Bool.noConfusion h⟩

theorem corsKept_handlerBody (env : Env) (r : Request) :
    corsKept (handlerBody env r).1.writer := by
  by_cases hm : r.Method = "OPTIONS".toList
  · rw [handlerBody_options env r hm]
    exact corsKept_WriteHeader (setCORS ResponseWriter.fresh) 200 corsKept_setCORS
  by_cases hp : r.Path = "/".toList
  · rw [handlerBody_root env r hm hp]
    exact corsKept_http_Redirect (setCORS ResponseWriter.fresh) r.Method
      "https://github.com/TBXark/vercel-proxy".toList "Moved Permanently".toList 301
      corsKept_setCORS
  cases hv : HasPrefix (targetURL r.Path r.RawQuery) "http".toList with
  | false =>
    rw [handlerBody_invalid env r hm hp hv]
    exact corsKept_http_Error (setCORS ResponseWriter.fresh)
      ("invalid url: ".toList ++ targetURL r.Path r.RawQuery) 400 corsKept_setCORS
  | true =>
    cases hn : env.newRequestErr r.Method (targetURL r.Path r.RawQuery) with
    | some err =>
      rw [handlerBody_construct env r err hm hp hv hn]
      exact corsKept_internalServerError (setCORS ResponseWriter.fresh) (some err)
        corsKept_setCORS
    | none =>
      cases hd : env.clientDo (buildOutbound env.tables r (targetURL r.Path r.RawQuery)) with
      | error err =>
        rw [handlerBody_dispatch env r err hm hp hv hn hd]
        exact corsKept_internalServerError (setCORS ResponseWriter.fresh) (some err)
          corsKept_setCORS
      | ok resp =>
        rw [handlerBody_relay env r resp hm hp hv hn hd]
        exact corsKept_relay (setCORS ResponseWriter.fresh) resp corsKept_setCORS

/-! ## Lemmas: the filtered outbound headers -/

theorem valuesAt_of_not_mem_keys (h : Header) (n : Str) (hn : n ∉ Header.keys h) :
    Header.valuesAt h n = [] := by
  induction h with
  | nil => rfl
  | cons e t ih =>
    obtain ⟨m, vs⟩ := e
    have hm : m ≠ n := fun heq => hn (by simp [Header.keys, heq])
    have ht : n ∉ Header.keys t := fun hmem => hn (by
      simp only [Header.keys, List.map_cons, List.mem_cons]
      exact Or.inr hmem)
    simp [Header.valuesAt, hm, ih ht]

/-- For an allow-listed name, the inbound names that pass the test of source
line 73 and are stored under it are the names equal to it up to ASCII case. -/
theorem allowed_and_canonical_iff (T : UnicodeTables) (k name : Str)
    (hn : name ∈ allowedNames) :
    (allowedHeaders T k = true ∧ CanonicalMIMEHeaderKey k = name) ↔ EqualFoldASCII k name := by
  constructor
  · rintro ⟨_, hc⟩
    unfold EqualFoldASCII
    rw [← hc, foldASCII_CanonicalMIMEHeaderKey]
  · exact allowed_of_equalFold T k name hn

/-- Every key of the filtered outbound header map is an allow-listed name, or
is an inbound name with a rune above ASCII that passed the test unchanged. -/
theorem outbound_key_cases (T : UnicodeTables) (inb : Header) (n : Str)
    (hn : n ∈ Header.keys (copyAllowed T inb [])) :
    n ∈ allowedNames ∨
      (n.all isASCII = false ∧ allowedHeaders T n = true ∧ ∃ e ∈ inb, e.1 = n ∧ e.2 ≠ []) := by
  rcases mem_keys_copyAllowed T inb [] n hn with h | ⟨e, he, ha, hne, hk⟩
  · simp [Header.keys] at h
  · cases hascii : e.1.all isASCII with
    | true =>
      left
      obtain ⟨name, hname, hfold⟩ := equalFold_of_allowed T e.1 hascii ha
      rw [hk, (allowed_of_equalFold T e.1 name hname hfold).2]
      exact hname
    | false =>
      right
      have hc := CanonicalMIMEHeaderKey_of_not_ascii e.1 hascii
      rw [hc] at hk
      subst hk
      exact ⟨hascii, ha, e, he, rfl, hne⟩

/-- An inbound ASCII name that matches no allow-listed name is not a key of the
filtered outbound header map, in its own spelling or in canonical form. -/
theorem not_mem_keys_copyAllowed (T : UnicodeTables) (inb : Header) (k : Str)
    (hk : k.all isASCII = true) (hno : ∀ name ∈ allowedNames, ¬ EqualFoldASCII k name) :
    k ∉ Header.keys (copyAllowed T inb []) ∧
    CanonicalMIMEHeaderKey k ∉ Header.keys (copyAllowed T inb []) := by
  constructor
  · intro hmem
    rcases outbound_key_cases T inb k hmem with h | ⟨h, _⟩
    · exact hno k h rfl
    · rw [hk] at h; exact Bool.noConfusion h
  · intro hmem
    rcases outbound_key_cases T inb _ hmem with h | ⟨h, _⟩
    · exact hno _ h (foldASCII_CanonicalMIMEHeaderKey k).symm
    · rw [all_isASCII_CanonicalMIMEHeaderKey, hk] at h; exact Bool.noConfusion h

/-- The values stored under an allow-listed name are the values of the inbound
entries whose name equals it up to ASCII case, in loop order. -/
theorem valuesAt_copyAllowed_allowed (T : UnicodeTables) (inb : Header) (name : Str)
    (hn : name ∈ allowedNames) :
    Header.valuesAt (copyAllowed T inb []) name
      = ((inb.filter (fun e => decide (EqualFoldASCII e.1 name))).map Prod.snd).flatten := by
  rw [valuesAt_copyAllowed]
  have hf : (fun e : Str × List Str =>
      allowedHeaders T e.1 && decide (CanonicalMIMEHeaderKey e.1 = name))
      = (fun e => decide (EqualFoldASCII e.1 name)) := by
    funext e
    have := allowed_and_canonical_iff T e.1 name hn
    by_cases h : EqualFoldASCII e.1 name
    · have h2 := this.mpr h
      simp [h, h2.1, h2.2]
    · have h2 : ¬ (allowedHeaders T e.1 = true ∧ CanonicalMIMEHeaderKey e.1 = name) :=
        fun hc => h (this.mp hc)
      simp only [h, decide_False]
      cases ha : allowedHeaders T e.1 with
      | false => rfl
      | true =>
        have : ¬ CanonicalMIMEHeaderKey e.1 = name := fun hc => h2 ⟨ha, hc⟩
        simp [this]
  rw [hf]
  rfl

/-! ## Lemmas: the caller-visible outcome -/

theorem Handler_of_returned (env : Env) (r : Request) (w : ResponseWriter)
    (s : List OutboundRequest) (h : handlerBody env r = (.returned w, s))
    (hw : w.wroteHeader = true) :
    Handler env r = { Code := w.Code, Header := w.snapHeader, Body := w.Body, sent := s,
                      forwarded := s.filter (fun out => validNames out.Header) } := by
  unfold Handler
  rw [h]
  simp [recovered, ResponseWriter.Write, hw]

theorem bytes_append (a b : Str) : bytes (a ++ b) = bytes a ++ bytes b := by
  induction a with
  | nil => rfl
  | cons c cs ih => simp [bytes, ih]

theorem carriesCORS_corsHeader : carriesCORS corsHeader := ⟨rfl, rfl, rfl⟩

theorem carriesCORS_errorHeader : carriesCORS errorHeader := ⟨rfl, rfl, rfl⟩

/-- The outcome of a run that ends in `http.Error` on the fresh CORS map. -/
theorem Handler_of_error (env : Env) (r : Request) (msg : Str) (code : Int)
    (s : List OutboundRequest) (h1 : 100 ≤ code) (h2 : code ≤ 999)
    (h : handlerBody env r = (http_Error (setCORS ResponseWriter.fresh) msg code, s)) :
    Handler env r
      = { Code := code, Header := errorHeader, Body := bytes (msg ++ "\n".toList), sent := s,
          forwarded := s.filter (fun out => validNames out.Header) } := by
  rw [http_Error_setCORS msg code h1 h2] at h
  rw [Handler_of_returned env r _ s h rfl]

/-! ## Lemmas: the requests the client forwards -/

theorem ValidHeaderFieldName_ascii (n : Str) (h : ValidHeaderFieldName n = true) :
    n.all isASCII = true := by
  unfold ValidHeaderFieldName at h
  rw [Bool.and_eq_true] at h
  rw [List.all_eq_true] at h ⊢
  exact fun c hc => validHeaderFieldByte_ascii c (h.2 c hc)

/-- A forwarded request was handed to `client.Do` and passed the check of its
header names. -/
theorem mem_forwarded (env : Env) (r : Request) (out : OutboundRequest)
    (h : out ∈ (Handler env r).forwarded) :
    out ∈ (Handler env r).sent ∧ validNames out.Header = true := by
  have h1 : out ∈ (Handler env r).sent.filter (fun o => validNames o.Header) := h
  rw [List.mem_filter] at h1
  exact h1

/-- The header map of a request handed to `client.Do` is the filtered copy of
the inbound header map. -/
theorem sent_header (env : Env) (r : Request) (out : OutboundRequest)
    (h : out ∈ (Handler env r).sent) : out.Header = copyAllowed env.tables r.Header [] := by
  rcases sent_cases env r with h0 | ⟨h1, _⟩
  · rw [h0] at h; simp at h
  · rw [h1, List.mem_singleton] at h
    rw [h]
    rfl

/-- Every header name of a forwarded request is one of the allow-listed names. -/
theorem forwarded_key_allowed (env : Env) (r : Request) (out : OutboundRequest)
    (hout : out ∈ (Handler env r).forwarded) (n : Str) (hn : n ∈ Header.keys out.Header) :
    n ∈ allowedNames := by
  obtain ⟨hs, hv⟩ := mem_forwarded env r out hout
  have hvalid : ValidHeaderFieldName n = true := by
    unfold validNames at hv
    rw [List.all_eq_true] at hv
    exact hv n hn
  rw [sent_header env r out hs] at hn
  rcases outbound_key_cases env.tables r.Header n hn with h | ⟨h, _⟩
  · exact h
  · rw [ValidHeaderFieldName_ascii n hvalid] at h
    exact Bool.noConfusion h

/-- When every inbound header name is ASCII, as the token names of a request
read from the wire are, every header name of a request handed to `client.Do`
is one of the allow-listed names. -/
theorem sent_key_allowed_of_ascii (env : Env) (r : Request) (out : OutboundRequest)
    (hout : out ∈ (Handler env r).sent) (hascii : ∀ e ∈ r.Header, e.1.all isASCII = true)
    (n : Str) (hn : n ∈ Header.keys out.Header) : n ∈ allowedNames := by
  rw [sent_header env r out hout] at hn
  rcases outbound_key_cases env.tables r.Header n hn with h | ⟨h, _, e, he, hen, _⟩
  · exact h
  · rw [← hen, hascii e he] at h
    exact Bool.noConfusion h

/-- A request that passes validation and construction is forwarded exactly when
the header names of the outbound request are valid. -/
theorem forwarded_of_built (env : Env) (r : Request)
    (hm : r.Method ≠ "OPTIONS".toList) (hp : r.Path ≠ "/".toList)
    (hv : HasPrefix (targetURL r.Path r.RawQuery) "http".toList = true)
    (hn : env.newRequestErr r.Method (targetURL r.Path r.RawQuery) = none) :
    (Handler env r).forwarded
      = if validNames (copyAllowed env.tables r.Header []) then
          [buildOutbound env.tables r (targetURL r.Path r.RawQuery)]
        else [] := by
  have h1 : (Handler env r).forwarded
      = (Handler env r).sent.filter (fun o => validNames o.Header) := rfl
  rw [h1, sent_forwarded env r hm hp hv hn]
  have h2 : (buildOutbound env.tables r (targetURL r.Path r.RawQuery)).Header
      = copyAllowed env.tables r.Header [] := rfl
  cases hvn : validNames (copyAllowed env.tables r.Header []) <;>
    simp [List.filter, h2, hvn]

/-- An outbound request with an invalid header name is refused by the client:
the caller gets the generic status 500 and nothing is forwarded. -/
theorem Handler_refused (env : Env) (r : Request)
    (hm : r.Method ≠ "OPTIONS".toList) (hp : r.Path ≠ "/".toList)
    (hv : HasPrefix (targetURL r.Path r.RawQuery) "http".toList = true)
    (hn : env.newRequestErr r.Method (targetURL r.Path r.RawQuery) = none)
    (hbad : validNames (copyAllowed env.tables r.Header []) = false) :
    (Handler env r).Code = 500 ∧
    (Handler env r).Body = bytes "Internal server error\n".toList ∧
    (Handler env r).forwarded = [] := by
  have hd : env.clientDo (buildOutbound env.tables r (targetURL r.Path r.RawQuery))
      = .error (env.refusal (buildOutbound env.tables r (targetURL r.Path r.RawQuery))) := by
    have h2 : (buildOutbound env.tables r (targetURL r.Path r.RawQuery)).Header
        = copyAllowed env.tables r.Header [] := rfl
    simp [Env.clientDo, h2, hbad]
  refine ⟨?_, ?_, ?_⟩
  · rw [Handler_of_error env r "Internal server error".toList 500 _ (by decide) (by decide)
      (handlerBody_dispatch env r _ hm hp hv hn hd)]
  · rw [Handler_of_error env r "Internal server error".toList 500 _ (by decide) (by decide)
      (handlerBody_dispatch env r _ hm hp hv hn hd)]
    rfl
  · rw [forwarded_of_built env r hm hp hv hn, hbad]
    rfl

/-- An inbound name that matches no allow-listed name is not a header name of a
forwarded request, in its own spelling or in canonical form. -/
theorem not_mem_keys_forwarded (env : Env) (r : Request) (out : OutboundRequest)
    (hout : out ∈ (Handler env r).forwarded) (k : Str)
    (hno : ∀ name ∈ allowedNames, ¬ EqualFoldASCII k name) :
    k ∉ Header.keys out.Header ∧ CanonicalMIMEHeaderKey k ∉ Header.keys out.Header := by
  constructor
  · intro hmem
    exact hno k (forwarded_key_allowed env r out hout k hmem) rfl
  · intro hmem
    exact hno _ (forwarded_key_allowed env r out hout _ hmem)
      (foldASCII_CanonicalMIMEHeaderKey k).symm

/-! ## The claims -/

/-- C5. Preflight short-circuit: for every inbound request with method OPTIONS,
whatever its path, query, headers and body (and whatever the environment), the
response status is 200, the body is empty, the three fixed CORS headers are
present and no outbound request is issued. -/
theorem Handler_preflight (env : Env) (r : Request) (hm : r.Method = "OPTIONS".toList) :
    (Handler env r).Code = 200 ∧ (Handler env r).Body = [] ∧
    carriesCORS (Handler env r).Header ∧ (Handler env r).sent = [] := by
  have hb : handlerBody env r
      = (.returned { HeaderMap := corsHeader, wroteHeader := true, Code := 200,
                     snapHeader := corsHeader, Body := [] }, []) := by
    rw [handlerBody_options env r hm, setCORS_fresh]
    rfl
  rw [Handler_of_returned env r _ [] hb rfl]
  exact ⟨rfl, rfl, carriesCORS_corsHeader, rfl⟩

/-- Witness of C5: an OPTIONS request for a forwardable path, against an
upstream that would answer 201. -/
theorem Handler_preflight_witness :
    (plainRequest "OPTIONS" "/https://example.com/a" "x=1").Method = "OPTIONS".toList ∧
    ((Handler (upstreamEnv createdResponse)
        (plainRequest "OPTIONS" "/https://example.com/a" "x=1")).Code = 200 ∧
     (Handler (upstreamEnv createdResponse)
        (plainRequest "OPTIONS" "/https://example.com/a" "x=1")).Body = [] ∧
     carriesCORS (Handler (upstreamEnv createdResponse)
        (plainRequest "OPTIONS" "/https://example.com/a" "x=1")).Header ∧
     (Handler (upstreamEnv createdResponse)
        (plainRequest "OPTIONS" "/https://example.com/a" "x=1")).sent = []) :=
  ⟨rfl, Handler_preflight _ _ rfl⟩

/-- C2. Validation: for every inbound request whose method is not OPTIONS and
whose path is not exactly `/`, if the derived target URL does not begin with
`http`, then the response status is 400, the body is the line `invalid url: `
followed by the derived URL (and the newline `http.Error` ends it with), so it
contains the derived URL, and no outbound request is issued. -/
theorem Handler_invalid_url (env : Env) (r : Request) (hm : r.Method ≠ "OPTIONS".toList)
    (hp : r.Path ≠ "/".toList)
    (hv : HasPrefix (targetURL r.Path r.RawQuery) "http".toList = false) :
    (Handler env r).Code = 400 ∧
    (Handler env r).Body
      = bytes ("invalid url: ".toList ++ targetURL r.Path r.RawQuery ++ "\n".toList) ∧
    bytes ("invalid url: ".toList ++ targetURL r.Path r.RawQuery) <+: (Handler env r).Body ∧
    bytes (targetURL r.Path r.RawQuery) <:+: (Handler env r).Body ∧
    (Handler env r).sent = [] := by
  rw [Handler_of_error env r _ 400 [] (by decide) (by decide)
    (handlerBody_invalid env r hm hp hv)]
  refine ⟨rfl, rfl, ?_, ?_, rfl⟩
  · show _ <+: bytes (_ ++ _)
    rw [bytes_append ("invalid url: ".toList ++ targetURL r.Path r.RawQuery)]
    exact List.prefix_append _ _
  · show _ <:+: bytes (_ ++ _)
    rw [bytes_append, bytes_append]
    exact ⟨bytes "invalid url: ".toList, bytes "\n".toList, rfl⟩

/-- Witness of C2: `GET /ftp://example.com` is answered with status 400 and a
body that mentions `/ftp://example.com`. -/
theorem Handler_invalid_url_witness :
    (plainRequest "GET" "/ftp://example.com" "").Method ≠ "OPTIONS".toList ∧
    (plainRequest "GET" "/ftp://example.com" "").Path ≠ "/".toList ∧
    HasPrefix (targetURL (plainRequest "GET" "/ftp://example.com" "").Path
      (plainRequest "GET" "/ftp://example.com" "").RawQuery) "http".toList = false ∧
    (Handler (upstreamEnv createdResponse) (plainRequest "GET" "/ftp://example.com" "")).Code
      = 400 ∧
    bytes "/ftp://example.com".toList
      <:+: (Handler (upstreamEnv createdResponse)
        (plainRequest "GET" "/ftp://example.com" "")).Body ∧
    (Handler (upstreamEnv createdResponse) (plainRequest "GET" "/ftp://example.com" "")).sent
      = [] :=
  have h := Handler_invalid_url (upstreamEnv createdResponse)
    (plainRequest "GET" "/ftp://example.com" "") (by decide) (by decide) (by decide)
  ⟨by decide, by decide, by decide, h.1, h.2.2.2.1, h.2.2.2.2⟩

/-- C9. Generic 500 on construction and dispatch failure: for every request
that passes validation, if building the outbound request fails with an error
`err`, or building succeeds and dispatching fails with `err`, then whatever
`err` is the response status is 500 and the body is the fixed line
`Internal server error` (ended by the newline of `http.Error`); the body does
not depend on the error. -/
theorem Handler_generic_500 (env : Env) (r : Request) (err : Str)
    (hm : r.Method ≠ "OPTIONS".toList) (hp : r.Path ≠ "/".toList)
    (hv : HasPrefix (targetURL r.Path r.RawQuery) "http".toList = true)
    (hf : env.newRequestErr r.Method (targetURL r.Path r.RawQuery) = some err ∨
      (env.newRequestErr r.Method (targetURL r.Path r.RawQuery) = none ∧
        env.clientDo (buildOutbound env.tables r (targetURL r.Path r.RawQuery)) = .error err)) :
    (Handler env r).Code = 500 ∧
    (Handler env r).Body = bytes "Internal server error\n".toList := by
  rcases hf with hn | ⟨hn, hd⟩
  · rw [Handler_of_error env r "Internal server error".toList 500 [] (by decide) (by decide)
      (handlerBody_construct env r err hm hp hv hn)]
    exact ⟨rfl, rfl⟩
  · rw [Handler_of_error env r "Internal server error".toList 500 _ (by decide) (by decide)
      (handlerBody_dispatch env r err hm hp hv hn hd)]
    exact ⟨rfl, rfl⟩

/-- Witness of C9: a dispatch that fails with `dial tcp: connection refused`. -/
theorem Handler_generic_500_witness :
    (Handler unreachableEnv (plainRequest "GET" "/http://example.com" "")).Code = 500 ∧
    (Handler unreachableEnv (plainRequest "GET" "/http://example.com" "")).Body
      = bytes "Internal server error\n".toList :=
  Handler_generic_500 unreachableEnv (plainRequest "GET" "/http://example.com" "")
    "dial tcp: connection refused".toList (by decide) (by decide) (by decide)
    (Or.inr ⟨rfl, rfl⟩)

/-- C6 as stated fails: an OPTIONS request for the path `/` is answered by the
preflight branch, with status 200 and without a Location header. -/
theorem Handler_root_options_not_redirected :
    (plainRequest "OPTIONS" "/" "").Path = "/".toList ∧
    (Handler (upstreamEnv createdResponse) (plainRequest "OPTIONS" "/" "")).Code = 200 ∧
    (Handler (upstreamEnv createdResponse) (plainRequest "OPTIONS" "/" "")).Code ≠ 301 ∧
    Header.Values (Handler (upstreamEnv createdResponse) (plainRequest "OPTIONS" "/" "")).Header
      "Location".toList = [] := by
  decide

theorem http_Redirect_setCORS (method : Str) :
    ∃ w, http_Redirect (setCORS ResponseWriter.fresh) method
        "https://github.com/TBXark/vercel-proxy".toList 301 "Moved Permanently".toList
        = .returned w ∧ w.wroteHeader = true ∧ w.Code = 301 ∧
      Header.Get w.snapHeader "Location".toList
        = "https://github.com/TBXark/vercel-proxy".toList ∧
      carriesCORS w.snapHeader := by
  rw [setCORS_fresh]
  unfold http_Redirect
  have hct : decide ("Content-Type".toList ∈ Header.keys corsHeader) = false := by decide
  simp only [hct, Bool.not_false, Bool.true_and]
  cases h1 : (method == "GET".toList || method == "HEAD".toList) <;>
    cases h2 : (method == "GET".toList) <;>
    simp only [ResponseWriter.WriteHeader, ResponseWriter.Write, if_true, if_false,
      Bool.false_eq_true] <;>
    exact ⟨_, rfl, rfl, rfl, rfl, rfl, rfl, rfl⟩

/-- C6, amended. Root redirect: for every inbound request whose path is exactly
`/` and whose method is not OPTIONS, the response status is 301 with a
Location header equal to `https://github.com/TBXark/vercel-proxy`, and no
outbound request is issued. -/
theorem Handler_root_redirect (env : Env) (r : Request) (hm : r.Method ≠ "OPTIONS".toList)
    (hp : r.Path = "/".toList) :
    (Handler env r).Code = 301 ∧
    Header.Get (Handler env r).Header "Location".toList
      = "https://github.com/TBXark/vercel-proxy".toList ∧
    (Handler env r).sent = [] := by
  obtain ⟨w, hw, h1, h2, h3, _⟩ := http_Redirect_setCORS r.Method
  have hb := handlerBody_root env r hm hp
  rw [hw] at hb
  rw [Handler_of_returned env r w [] hb h1]
  exact ⟨h2, h3, rfl⟩

/-- Witness of the amended C6: `POST /`. -/
theorem Handler_root_redirect_witness :
    (plainRequest "POST" "/" "").Method ≠ "OPTIONS".toList ∧
    (plainRequest "POST" "/" "").Path = "/".toList ∧
    (Handler (upstreamEnv createdResponse) (plainRequest "POST" "/" "")).Code = 301 ∧
    Header.Get (Handler (upstreamEnv createdResponse) (plainRequest "POST" "/" "")).Header
      "Location".toList = "https://github.com/TBXark/vercel-proxy".toList ∧
    (Handler (upstreamEnv createdResponse) (plainRequest "POST" "/" "")).sent = [] :=
  ⟨by decide, rfl, Handler_root_redirect _ _ (by decide) rfl⟩

/-- C8. CORS headers are always present: for every environment and every
inbound request, on whichever branch the handler ends (preflight, root
redirect, invalid URL, construction or dispatch failure, relay of the upstream
response whatever headers the upstream sends, failed body copy, recovered
panic), the response headers carry `Access-Control-Allow-Origin: *`,
`Access-Control-Allow-Methods: POST, GET, OPTIONS, PUT, DELETE` and
`Access-Control-Allow-Headers: Content-Type, Authorization`, each fixed value
being the first value of its header. -/
theorem Handler_cors_always (env : Env) (r : Request) :
    carriesCORS (Handler env r).Header ∧
    "*".toList ∈ Header.Values (Handler env r).Header "Access-Control-Allow-Origin".toList ∧
    "POST, GET, OPTIONS, PUT, DELETE".toList
      ∈ Header.Values (Handler env r).Header "Access-Control-Allow-Methods".toList ∧
    "Content-Type, Authorization".toList
      ∈ Header.Values (Handler env r).Header "Access-Control-Allow-Headers".toList := by
  have h2 := corsKept_Write _ [] (corsKept_recovered _ (corsKept_handlerBody env r))
  have hf : corsFirst (Handler env r).Header := h2.1.2 h2.2
  refine ⟨carriesCORS_of_corsFirst _ hf, ?_, ?_, ?_⟩
  · exact (hf ("Access-Control-Allow-Origin".toList, ["*".toList])
      (by simp [corsHeader])).subset (List.mem_singleton_self _)
  · exact (hf ("Access-Control-Allow-Methods".toList,
      ["POST, GET, OPTIONS, PUT, DELETE".toList])
      (by simp [corsHeader])).subset (List.mem_singleton_self _)
  · exact (hf ("Access-Control-Allow-Headers".toList, ["Content-Type, Authorization".toList])
      (by simp [corsHeader])).subset (List.mem_singleton_self _)

/-- C7 as stated fails: the upstream answers with the status code 99 (a status
line `099`), the body copy cannot fail, and the caller sees status 500 with the
text of the recovered panic instead of status 99. -/
theorem Handler_status_99_not_relayed :
    (upstreamEnv status99Response).clientDo
        (buildOutbound noTables (plainRequest "GET" "/http://example.com" "")
          (targetURL (plainRequest "GET" "/http://example.com" "").Path
            (plainRequest "GET" "/http://example.com" "").RawQuery))
      = .ok status99Response ∧
    status99Response.copyErr = none ∧
    (Handler (upstreamEnv status99Response) (plainRequest "GET" "/http://example.com" "")).Code
      = 500 ∧
    (Handler (upstreamEnv status99Response) (plainRequest "GET" "/http://example.com" "")).Code
      ≠ status99Response.StatusCode ∧
    (Handler (upstreamEnv status99Response) (plainRequest "GET" "/http://example.com" "")).Body
      = bytes "internal server error: invalid WriteHeader code 99\n".toList :=
  ⟨rfl, rfl, by decide, by decide, by decide⟩

/-- C7, amended. Response relay: for every forwarded request for which the
upstream returns a status `s` with `100 ≤ s ≤ 999`, headers `H` and body `B`,
and the body copy succeeds, the caller-visible response has status `s`, body
exactly `B`, for every entry of `H` all of its values, in order, under its name
(looked up as `Header.Values` does, by the canonical form of the name), and
the three fixed CORS headers. -/
theorem Handler_relay (env : Env) (r : Request) (resp : UpstreamResponse)
    (hm : r.Method ≠ "OPTIONS".toList) (hp : r.Path ≠ "/".toList)
    (hv : HasPrefix (targetURL r.Path r.RawQuery) "http".toList = true)
    (hn : env.newRequestErr r.Method (targetURL r.Path r.RawQuery) = none)
    (hd : env.clientDo (buildOutbound env.tables r (targetURL r.Path r.RawQuery)) = .ok resp)
    (hs : 100 ≤ resp.StatusCode ∧ resp.StatusCode ≤ 999) (hc : resp.copyErr = none) :
    (Handler env r).Code = resp.StatusCode ∧
    (Handler env r).Body = resp.Body ∧
    (∀ e ∈ resp.Header, e.2 <:+: Header.Values (Handler env r).Header e.1) ∧
    carriesCORS (Handler env r).Header := by
  have hcode : ¬ (resp.StatusCode < 100 ∨ resp.StatusCode > 999) := by omega
  have hb : handlerBody env r
      = (.returned { HeaderMap := copyAll resp.Header corsHeader, wroteHeader := true,
                     Code := resp.StatusCode, snapHeader := copyAll resp.Header corsHeader,
                     Body := resp.Body },
         [buildOutbound env.tables r (targetURL r.Path r.RawQuery)]) := by
    rw [handlerBody_relay env r resp hm hp hv hn hd, setCORS_fresh]
    simp [relay, ResponseWriter.WriteHeader, hcode, ResponseWriter.Write, hc,
      internalServerError]
  rw [Handler_of_returned env r _ _ hb rfl]
  refine ⟨rfl, rfl, fun e he => valuesAt_copyAll_infix resp.Header corsHeader e he, ?_⟩
  exact carriesCORS_of_corsFirst _ (corsFirst_copyAll _ _ corsFirst_corsHeader)

/-- Witness of the amended C7, the round trip of the specification: upstream
status 201, header `X-Test: ok`, body `hello`. -/
theorem Handler_relay_witness :
    (Handler (upstreamEnv createdResponse) (plainRequest "GET" "/http://example.com" "")).Code
      = 201 ∧
    (Handler (upstreamEnv createdResponse) (plainRequest "GET" "/http://example.com" "")).Body
      = bytes "hello".toList ∧
    (∀ e ∈ createdResponse.Header,
      e.2 <:+: Header.Values (Handler (upstreamEnv createdResponse)
        (plainRequest "GET" "/http://example.com" "")).Header e.1) ∧
    carriesCORS (Handler (upstreamEnv createdResponse)
      (plainRequest "GET" "/http://example.com" "")).Header :=
  Handler_relay (upstreamEnv createdResponse) (plainRequest "GET" "/http://example.com" "")
    createdResponse (by decide) (by decide) (by decide) rfl rfl (by decide) rfl

/-- C1. Target URL derivation: for every inbound path made of any number of
`/`, then `http` or `https`, then `:`, then any number of `/`, then a rest that
does not begin with `/`, and for every raw query `q`, the derived target URL is
scheme, `://` and rest when `q` is empty, and that followed by `?` and `q`
otherwise; and every outbound request the handler issues for such a request
carries exactly this URL. -/
theorem targetURL_of_embedded_scheme (a b : Nat) (s rest q : Str)
    (hs : s = "http".toList ∨ s = "https".toList) (hrest : rest.head? ≠ some '/') :
    targetURL (List.replicate a '/' ++ s ++ ":".toList ++ List.replicate b '/' ++ rest) q
      = (if q = [] then s ++ "://".toList ++ rest
         else s ++ "://".toList ++ rest ++ "?".toList ++ q) ∧
    ∀ (env : Env) (r : Request),
      r.Path = List.replicate a '/' ++ s ++ ":".toList ++ List.replicate b '/' ++ rest →
      r.RawQuery = q →
      ∀ out ∈ (Handler env r).sent,
        out.URL = (if q = [] then s ++ "://".toList ++ rest
                   else s ++ "://".toList ++ rest ++ "?".toList ++ q) := by
  have h1 : targetURL (List.replicate a '/' ++ s ++ ":".toList ++ List.replicate b '/' ++ rest) q
      = (if q = [] then s ++ "://".toList ++ rest
         else s ++ "://".toList ++ rest ++ "?".toList ++ q) := by
    unfold targetURL
    rw [replacePath_scheme a b s rest hs hrest]
    by_cases hq : q = [] <;> simp [hq]
  refine ⟨h1, fun env r hp hq out hout => ?_⟩
  rcases sent_cases env r with h | ⟨h, _⟩
  · rw [h] at hout; simp at hout
  · rw [h, List.mem_singleton] at hout
    rw [hout, ← h1, ← hp, ← hq]
    rfl

/-- Witness of C1: the path `/https://example.com/a/b` with query `x=1`. -/
theorem targetURL_of_embedded_scheme_witness :
    targetURL "/https://example.com/a/b".toList "x=1".toList
      = "https://example.com/a/b?x=1".toList ∧
    targetURL "//https:/example.com/foo".toList [] = "https://example.com/foo".toList ∧
    targetURL "//http:/example.com".toList [] = "http://example.com".toList :=
  ⟨(targetURL_of_embedded_scheme 1 2 "https".toList "example.com/a/b".toList "x=1".toList
      (Or.inr rfl) (by decide)).1,
   (targetURL_of_embedded_scheme 2 1 "https".toList "example.com/foo".toList []
      (Or.inr rfl) (by decide)).1,
   (targetURL_of_embedded_scheme 2 1 "http".toList "example.com".toList []
      (Or.inl rfl) (by decide)).1⟩

/-- C10. Forwarded URLs carry a full scheme: for every inbound request whose
path begins with `/` and every query, if the derived URL passes validation (it
begins with `http`), then it begins with `http://` or with `https://`, and it
is the URL of every outbound request the handler issues. -/
theorem Handler_forwards_full_scheme (env : Env) (r : Request)
    (hp : r.Path.head? = some '/')
    (hv : HasPrefix (targetURL r.Path r.RawQuery) "http".toList = true) :
    (HasPrefix (targetURL r.Path r.RawQuery) "http://".toList = true ∨
      HasPrefix (targetURL r.Path r.RawQuery) "https://".toList = true) ∧
    ∀ out ∈ (Handler env r).sent, out.URL = targetURL r.Path r.RawQuery := by
  refine ⟨validated_full_scheme r.Path r.RawQuery hp hv, fun out hout => ?_⟩
  rcases sent_cases env r with h | ⟨h, _⟩
  · rw [h] at hout; simp at hout
  · rw [h, List.mem_singleton] at hout
    rw [hout]
    rfl

/-- Witness of C10: `GET /http://example.com` against an upstream answering 201;
one outbound request is issued. -/
theorem Handler_forwards_full_scheme_witness :
    (plainRequest "GET" "/http://example.com" "").Path.head? = some '/' ∧
    (Handler (upstreamEnv createdResponse)
      (plainRequest "GET" "/http://example.com" "")).sent.length = 1 ∧
    ((HasPrefix (targetURL (plainRequest "GET" "/http://example.com" "").Path
        (plainRequest "GET" "/http://example.com" "").RawQuery) "http://".toList = true ∨
      HasPrefix (targetURL (plainRequest "GET" "/http://example.com" "").Path
        (plainRequest "GET" "/http://example.com" "").RawQuery) "https://".toList = true) ∧
    ∀ out ∈ (Handler (upstreamEnv createdResponse)
        (plainRequest "GET" "/http://example.com" "")).sent,
      out.URL = targetURL (plainRequest "GET" "/http://example.com" "").Path
        (plainRequest "GET" "/http://example.com" "").RawQuery) :=
  ⟨by decide, by decide,
    Handler_forwards_full_scheme (upstreamEnv createdResponse)
      (plainRequest "GET" "/http://example.com" "") (by decide) (by decide)⟩

/-- C3. Header allow-list invariant: for every inbound request that is
forwarded, whatever header names and values it carries and whatever the
Unicode tables, every header name present on the outbound request is one of
`Authorization`, `Content-Type`, `User-Agent`, `Accept` (in this canonical
spelling, hence equal to it when letter case is ignored); no other header name
reaches the outbound request. -/
theorem Handler_allow_list (env : Env) (r : Request) (out : OutboundRequest)
    (hout : out ∈ (Handler env r).forwarded) (n : Str) (hn : n ∈ Header.keys out.Header) :
    n ∈ allowedNames ∧ ∃ name ∈ allowedNames, EqualFoldASCII n name :=
  ⟨forwarded_key_allowed env r out hout n hn,
    n, forwarded_key_allowed env r out hout n hn, rfl⟩

/-- Witness of C3: a request with allowed headers in several casings and other
headers is forwarded, and the header names of the one outbound request are
`Authorization`, `Content-Type` and `Accept`. -/
theorem Handler_allow_list_witness :
    (Handler (upstreamEnv createdResponse) (requestWith
      [("AUTHORIZATION", ["Bearer x"]), ("Cookie", ["s=1"]), ("content-type", ["text/plain"]),
       ("X-Forwarded-For", ["10.0.0.1"]), ("Accept", ["a/b", "c/d"])])).forwarded.map
      (fun out => Header.keys out.Header)
      = [["Authorization".toList, "Content-Type".toList, "Accept".toList]] ∧
    ∀ out ∈ (Handler (upstreamEnv createdResponse) (requestWith
      [("AUTHORIZATION", ["Bearer x"]), ("Cookie", ["s=1"]), ("content-type", ["text/plain"]),
       ("X-Forwarded-For", ["10.0.0.1"]), ("Accept", ["a/b", "c/d"])])).forwarded,
      ∀ n ∈ Header.keys out.Header,
        n ∈ allowedNames ∧ ∃ name ∈ allowedNames, EqualFoldASCII n name :=
  ⟨by decide, fun out hout n hn => Handler_allow_list _ _ out hout n hn⟩

/-- C4. Header filtering: for every forwarded inbound request, whatever the
Unicode tables,
(1) for every inbound header whose name equals one of `Authorization`,
`Content-Type`, `User-Agent`, `Accept` when the case of letters is ignored (in
any casing), the outbound request carries all of that header's values, in
their inbound order, under that name: `Header.Values` returns them for the
inbound spelling, and the key of the map is the canonical spelling, which is
the inbound name itself when that is in canonical form, as the names of a
request read from the wire are;
(2) what the outbound request carries under an allow-listed name is exactly
the values of the inbound headers with that name, in loop order;
(3) every inbound header whose name matches none of the four is absent from
the outbound request. -/
theorem Handler_header_filtering (env : Env) (r : Request) (out : OutboundRequest)
    (hout : out ∈ (Handler env r).forwarded) :
    (∀ e ∈ r.Header, ∀ name ∈ allowedNames, EqualFoldASCII e.1 name →
      CanonicalMIMEHeaderKey e.1 = name ∧
      e.2 <:+: Header.valuesAt out.Header name ∧
      e.2 <:+: Header.Values out.Header e.1 ∧
      (CanonicalMIMEHeaderKey e.1 = e.1 → e.2 <:+: Header.valuesAt out.Header e.1)) ∧
    (∀ name ∈ allowedNames, Header.Values out.Header name
      = ((r.Header.filter (fun e => decide (EqualFoldASCII e.1 name))).map Prod.snd).flatten) ∧
    (∀ e ∈ r.Header, (∀ name ∈ allowedNames, ¬ EqualFoldASCII e.1 name) →
      e.1 ∉ Header.keys out.Header ∧ Header.Values out.Header e.1 = []) := by
  have hh := sent_header env r out (mem_forwarded env r out hout).1
  refine ⟨?_, ?_, ?_⟩
  · intro e he name hname hfold
    have h := allowed_of_equalFold env.tables e.1 name hname hfold
    have hv : e.2 <:+: Header.Values out.Header e.1 := by
      rw [hh]
      exact valuesAt_copyAllowed_infix env.tables r.Header [] e he h.1
    have hv2 : e.2 <:+: Header.valuesAt out.Header name := by
      have := hv
      unfold Header.Values at this
      rwa [h.2] at this
    exact ⟨h.2, hv2, hv, fun hc => by rw [hc] at h; rw [h.2]; exact hv2⟩
  · intro name hname
    show Header.valuesAt out.Header (CanonicalMIMEHeaderKey name) = _
    rw [hh, (allowedNames_facts name hname).2.2.1]
    exact valuesAt_copyAllowed_allowed env.tables r.Header name hname
  · intro e _ hno
    have h := not_mem_keys_forwarded env r out hout e.1 hno
    exact ⟨h.1, valuesAt_of_not_mem_keys _ _ h.2⟩

/-- Witness of C4, the example of the specification: of the inbound headers
`Authorization: Bearer x`, `Cookie: s=1`, `X-Custom: v` the one forwarded
request carries `Authorization: Bearer x` and neither `Cookie` nor `X-Custom`. -/
theorem Handler_header_filtering_witness :
    ∃ out, (Handler (upstreamEnv createdResponse) (requestWith
        [("Authorization", ["Bearer x"]), ("Cookie", ["s=1"]), ("X-Custom", ["v"])])).forwarded
        = [out] ∧
      Header.Values out.Header "Authorization".toList = ["Bearer x".toList] ∧
      "Cookie".toList ∉ Header.keys out.Header ∧
      Header.Values out.Header "Cookie".toList = [] ∧
      "X-Custom".toList ∉ Header.keys out.Header ∧
      Header.Values out.Header "X-Custom".toList = [] := by
  have hf : (Handler (upstreamEnv createdResponse) (requestWith
      [("Authorization", ["Bearer x"]), ("Cookie", ["s=1"]), ("X-Custom", ["v"])])).forwarded
      = [buildOutbound noTables (requestWith
          [("Authorization", ["Bearer x"]), ("Cookie", ["s=1"]), ("X-Custom", ["v"])])
          "https://example.com/".toList] := by rfl
  obtain ⟨_, h2, h3⟩ := Handler_header_filtering (upstreamEnv createdResponse)
    (requestWith [("Authorization", ["Bearer x"]), ("Cookie", ["s=1"]), ("X-Custom", ["v"])])
    _ (hf ▸ List.mem_singleton_self _)
  have hc := h3 ("Cookie".toList, ["s=1".toList]) (by decide) (by decide)
  have hx := h3 ("X-Custom".toList, ["v".toList]) (by decide) (by decide)
  refine ⟨_, hf, ?_, hc.1, hc.2, hx.1, hx.2⟩
  rw [h2 "Authorization".toList (by decide)]
  decide

end Api
